import Mathlib

/-!
Verification of the WebAudioStream streaming buffer pipeline.

Shallow embedding of the core components, translated from the TypeScript /
JavaScript sources:

* `StreamingAssembler` — packages/web-audio-stream/src/StreamingAssembler.ts
* `AudioChunkStore`    — packages/web-audio-stream/src/AudioChunkStore.ts
* `AudioWorklet`       — audio-worklet-processor.js (AudioPlaybackProcessor)

Byte buffers (`ArrayBuffer`) are modelled as `List Nat`; `Float32Array`
sample payloads are modelled either as `List Nat` of 32-bit words (where the
bit pattern matters) or as lists over an abstract sample type (where samples
are only copied, never inspected).  JavaScript numbers used for wall-clock
time and sample rates are modelled as exact rationals `ℚ`; `Map` objects are
modelled as association lists with JavaScript `Map` insertion semantics.
-/

namespace StreamingAssembler

/-- A download chunk as produced by `DownloadManager` (fields `start`, `end`
and `downloadTime` are not consumed by the assembler and are omitted);
`data : ArrayBuffer` is modelled as the list of its bytes. -/
structure DownloadChunk where
  index : Nat
  data : List Nat
deriving Repr, DecidableEq

/-- An `AssemblyChunk` emitted by the assembler.  The derived string field
`id = "assembly-" + storageIndex` and the wall-clock `assemblyTime` are
omitted. -/
structure AssemblyChunk where
  storageIndex : Nat
  downloadChunks : List DownloadChunk
  totalSize : Nat
  data : List Nat
  canStartPlayback : Bool
deriving Repr, DecidableEq

/-- `StreamingAssemblerOptions` (the callback fields are modelled by the
event log in the state). -/
structure AssemblerOptions where
  storageChunkSize : Nat
  playbackChunkSize : Nat
deriving Repr, DecidableEq

/-- The mutable state of a `StreamingAssembler`.  `downloadChunks` is the
pending `Map<number, DownloadChunk>` keyed by download index (as an
association list in insertion order); `assembledChunks` is the
`Map<number, AssemblyChunk>` in insertion order.  `playbackReadyEvents`
records the storage index passed to each `onPlaybackReady` callback
invocation, in order. -/
structure AssemblerState where
  totalExpectedSize : Nat
  downloadChunks : List (Nat × List Nat)
  assembledChunks : List AssemblyChunk
  nextStorageIndex : Nat
  currentAssemblyBuffer : Option (List Nat)
  currentAssemblySize : Nat
  currentDownloadChunks : List DownloadChunk
  isPlaybackReady : Bool
  playbackReadyEvents : List Nat
deriving Repr, DecidableEq

/-- `initialize(totalSize)`. -/
def initState (totalSize : Nat) : AssemblerState :=
  { totalExpectedSize := totalSize
    downloadChunks := []
    assembledChunks := []
    nextStorageIndex := 0
    currentAssemblyBuffer := none
    currentAssemblySize := 0
    currentDownloadChunks := []
    isPlaybackReady := false
    playbackReadyEvents := [] }

/-- JavaScript `Map.set` on an association list: overwrite the key if
present, otherwise append. -/
def mapSet (m : List (Nat × List Nat)) (k : Nat) (v : List Nat) :
    List (Nat × List Nat) :=
  if m.any (fun p => p.1 == k) then
    m.map (fun p => if p.1 == k then (k, v) else p)
  else m ++ [(k, v)]

/-- JavaScript `Map.get`. -/
def mapGet (m : List (Nat × List Nat)) (k : Nat) : Option (List Nat) :=
  (m.find? (fun p => p.1 == k)).map (fun p => p.2)

/-- JavaScript `Map.delete`. -/
def mapDelete (m : List (Nat × List Nat)) (k : Nat) : List (Nat × List Nat) :=
  m.filter (fun p => p.1 != k)

/-- `getNextSequentialIndex()`: total number of download chunks consumed so
far (those folded into sealed blocks plus those in the current assembly). -/
def getNextSequentialIndex (s : AssemblerState) : Nat :=
  (s.assembledChunks.map (fun c => c.downloadChunks.length)).sum
    + s.currentDownloadChunks.length

/-- `isLastAssemblyChunk()`: processed bytes (sealed plus in-progress) have
reached the expected total. -/
def isLastAssemblyChunk (s : AssemblerState) : Bool :=
  decide ((s.assembledChunks.map (fun c => c.totalSize)).sum
    + s.currentAssemblySize ≥ s.totalExpectedSize)

/-- `shouldCompleteCurrentAssembly()`. -/
def shouldCompleteCurrentAssembly (o : AssemblerOptions) (s : AssemblerState) :
    Bool :=
  if s.nextStorageIndex == 0 then
    decide (s.currentAssemblySize ≥ o.playbackChunkSize)
  else
    decide (s.currentAssemblySize ≥ o.storageChunkSize) || isLastAssemblyChunk s

/-- `completeCurrentAssembly()`: seal the in-progress buffer into an
`AssemblyChunk`, record it in the `assembledChunks` map (its key
`nextStorageIndex` is always fresh, so `Map.set` is an append), fire
`onPlaybackReady` for the first sealed block, and reset the accumulator. -/
def completeCurrentAssembly (s : AssemblerState) : AssemblerState :=
  match s.currentAssemblyBuffer with
  | none => s
  | some buf =>
    if s.currentDownloadChunks.length == 0 then s
    else
      let chunk : AssemblyChunk :=
        { storageIndex := s.nextStorageIndex
          downloadChunks := s.currentDownloadChunks
          totalSize := s.currentAssemblySize
          data := buf
          canStartPlayback := s.nextStorageIndex == 0 && !s.isPlaybackReady }
      { s with
        assembledChunks := s.assembledChunks ++ [chunk]
        isPlaybackReady := s.isPlaybackReady || chunk.canStartPlayback
        playbackReadyEvents :=
          if chunk.canStartPlayback then
            s.playbackReadyEvents ++ [chunk.storageIndex]
          else s.playbackReadyEvents
        nextStorageIndex := s.nextStorageIndex + 1
        currentAssemblyBuffer := none
        currentAssemblySize := 0
        currentDownloadChunks := [] }

/-- `checkForAssemblyCompletion()`. -/
def checkForAssemblyCompletion (o : AssemblerOptions) (s : AssemblerState) :
    AssemblerState :=
  match s.currentAssemblyBuffer with
  | none => s
  | some _ =>
    if shouldCompleteCurrentAssembly o s then completeCurrentAssembly s else s

/-- `processDownloadChunk(chunk)`: append the chunk to the current assembly
buffer and check for completion. -/
def processDownloadChunk (o : AssemblerOptions) (s : AssemblerState)
    (chunk : DownloadChunk) : AssemblerState :=
  let s1 := { s with currentDownloadChunks := s.currentDownloadChunks ++ [chunk] }
  let newTotalSize := s1.currentAssemblySize + chunk.data.length
  let combined := (s1.currentAssemblyBuffer.getD []) ++ chunk.data
  let s2 := { s1 with
    currentAssemblyBuffer := some combined
    currentAssemblySize := newTotalSize }
  checkForAssemblyCompletion o s2

/-- The `while` loop of `processAvailableChunks()`.  Each iteration removes
one entry from the pending map, so the map size bounds the iteration count
and is used as fuel. -/
def processAvailableChunks (o : AssemblerOptions) :
    Nat → AssemblerState → AssemblerState
  | 0, s => s
  | fuel + 1, s =>
    let nextIndex := getNextSequentialIndex s
    match mapGet s.downloadChunks nextIndex with
    | none => s
    | some d =>
      let s1 := processDownloadChunk o s ⟨nextIndex, d⟩
      let s2 := { s1 with downloadChunks := mapDelete s1.downloadChunks nextIndex }
      processAvailableChunks o fuel s2

/-- `addDownloadChunk(chunk)`. -/
def addDownloadChunk (o : AssemblerOptions) (s : AssemblerState)
    (c : DownloadChunk) : AssemblerState :=
  let s1 := { s with downloadChunks := mapSet s.downloadChunks c.index c.data }
  processAvailableChunks o s1.downloadChunks.length s1

/-- `finalize()`: flush any pending (possibly undersized) assembly. -/
def finalizeAssembly (s : AssemblerState) : AssemblerState :=
  match s.currentAssemblyBuffer with
  | none => s
  | some _ =>
    if s.currentDownloadChunks.length > 0 then completeCurrentAssembly s else s

/-- `getAssembledChunks()`: read the map back in storage-index order. -/
def getAssembledChunks (s : AssemblerState) : List AssemblyChunk :=
  (List.range s.nextStorageIndex).filterMap
    (fun i => s.assembledChunks.find? (fun c => c.storageIndex == i))

/-- Feed fragments to `addDownloadChunk` with consecutive download indices
starting at `k` (the strictly-increasing in-order delivery produced by the
download manager). -/
def feedFrom (o : AssemblerOptions) : Nat → AssemblerState → List (List Nat) →
    AssemblerState
  | _, s, [] => s
  | k, s, d :: rest => feedFrom o (k + 1) (addDownloadChunk o s ⟨k, d⟩) rest

/-- A whole assembly run: `initialize(total)`, feed all fragments in order,
then `finalize()`. -/
def runAssembler (o : AssemblerOptions) (total : Nat)
    (fragments : List (List Nat)) : AssemblerState :=
  finalizeAssembly (feedFrom o 0 (initState total) fragments)

/-- Size abstraction of the assembler state: everything the seal decisions
and the event log depend on, with payloads replaced by their sizes. -/
structure SizeState where
  total : Nat
  assembled : List (Nat × Bool)
  nextStorageIndex : Nat
  currentSize : Nat
  currentFrags : Nat
  currentIsSome : Bool
  isPlaybackReady : Bool
  events : List Nat
deriving Repr, DecidableEq

/-- Abstraction map from assembler states to size states. -/
def absState (s : AssemblerState) : SizeState :=
  { total := s.totalExpectedSize
    assembled := s.assembledChunks.map (fun c => (c.totalSize, c.canStartPlayback))
    nextStorageIndex := s.nextStorageIndex
    currentSize := s.currentAssemblySize
    currentFrags := s.currentDownloadChunks.length
    currentIsSome := s.currentAssemblyBuffer.isSome
    isPlaybackReady := s.isPlaybackReady
    events := s.playbackReadyEvents }

/-- Size-level `isLastAssemblyChunk`. -/
def sizeIsLast (σ : SizeState) : Bool :=
  decide ((σ.assembled.map Prod.fst).sum + σ.currentSize ≥ σ.total)

/-- Size-level `shouldCompleteCurrentAssembly`. -/
def sizeShouldComplete (o : AssemblerOptions) (σ : SizeState) : Bool :=
  if σ.nextStorageIndex == 0 then
    decide (σ.currentSize ≥ o.playbackChunkSize)
  else
    decide (σ.currentSize ≥ o.storageChunkSize) || sizeIsLast σ

/-- Size-level `completeCurrentAssembly`. -/
def sizeComplete (σ : SizeState) : SizeState :=
  if σ.currentIsSome then
    if σ.currentFrags == 0 then σ
    else
      let canStart := σ.nextStorageIndex == 0 && !σ.isPlaybackReady
      { σ with
        assembled := σ.assembled ++ [(σ.currentSize, canStart)]
        isPlaybackReady := σ.isPlaybackReady || canStart
        events := if canStart then σ.events ++ [σ.nextStorageIndex] else σ.events
        nextStorageIndex := σ.nextStorageIndex + 1
        currentSize := 0
        currentFrags := 0
        currentIsSome := false }
  else σ

/-- Size-level `processDownloadChunk`. -/
def sizeProcess (o : AssemblerOptions) (σ : SizeState) (n : Nat) : SizeState :=
  let σ1 := { σ with
    currentFrags := σ.currentFrags + 1
    currentSize := σ.currentSize + n
    currentIsSome := true }
  if sizeShouldComplete o σ1 then sizeComplete σ1 else σ1

/-- Size-level `finalize`. -/
def sizeFinalize (σ : SizeState) : SizeState :=
  if σ.currentIsSome then
    if σ.currentFrags > 0 then sizeComplete σ else σ
  else σ

/-- Size-level whole run. -/
def sizeRun (o : AssemblerOptions) (total : Nat) (sizes : List Nat) : SizeState :=
  sizeFinalize (sizes.foldl (sizeProcess o)
    { total := total, assembled := [], nextStorageIndex := 0, currentSize := 0
      currentFrags := 0, currentIsSome := false, isPlaybackReady := false
      events := [] })

/-- The invariant maintained while fragments are fed in order: the pending
map is empty, sealed blocks carry the storage indices `0, 1, …` in order,
`k` fragments have been consumed, the bytes are conserved, and the
accumulator bookkeeping fields agree. -/
structure Inv (s : AssemblerState) (k : Nat) (bytes : List Nat) : Prop where
  pending : s.downloadChunks = []
  idx : s.assembledChunks.map (fun c => c.storageIndex) =
    List.range s.nextStorageIndex
  count : getNextSequentialIndex s = k
  bytesEq : (s.assembledChunks.map (fun c => c.data)).flatten
    ++ s.currentAssemblyBuffer.getD [] = bytes
  bufFrags : s.currentAssemblyBuffer = none ↔ s.currentDownloadChunks = []
  size : s.currentAssemblySize = (s.currentAssemblyBuffer.getD []).length

end StreamingAssembler

namespace AudioChunkStore

/-- Persisted track metadata (`AudioMetadata`).  Only the fields consumed by
`cleanup()` are modelled; `lastAccessed` is a millisecond timestamp as
returned by `Date.now()`. -/
structure TrackMeta where
  trackId : String
  fileSize : Nat
  lastAccessed : Int
deriving Repr, DecidableEq

/-- `maxAge = 10 * 24 * 60 * 60 * 1000` (10 days in milliseconds). -/
def maxAge : Int := 864000000

/-- `maxStorageSize = 1024 * 1024 * 1024` (1 GiB). -/
def maxStorageSize : Int := 1073741824

/-- The first phase of `cleanup()`: compute the overall stored size, then
collect every track whose `lastAccessed` age exceeds `maxAge`, subtracting
its size from the running total. -/
def cleanupPhase1 (now : Int) (ms : List TrackMeta) : List String × Int :=
  ms.foldl
    (fun acc m =>
      if now - m.lastAccessed > maxAge then
        (acc.1 ++ [m.trackId], acc.2 - (m.fileSize : Int))
      else acc)
    ([], (ms.map (fun m => (m.fileSize : Int))).sum)

/-- The comparator `(a, b) => a.lastAccessed - b.lastAccessed` used to sort
remaining tracks oldest-first. -/
def byAge (a b : TrackMeta) : Prop := a.lastAccessed ≤ b.lastAccessed

instance : DecidableRel byAge := fun a b => Int.decLe _ _

instance : IsTotal TrackMeta byAge := ⟨fun a b => Int.le_total _ _⟩

instance : IsTrans TrackMeta byAge := ⟨fun _ _ _ h h' => le_trans h h'⟩

/-- The `for … break` loop of the second phase of `cleanup()`: walk the
age-sorted remaining tracks, stopping as soon as the running total is within
the storage budget, and otherwise removing the track and subtracting its
size. -/
def cleanupPhase2 : Int → List TrackMeta → List String
  | _, [] => []
  | total, m :: rest =>
    if total ≤ maxStorageSize then []
    else m.trackId :: cleanupPhase2 (total - (m.fileSize : Int)) rest

/-- `cleanup()` (the eviction pass), as the list of track ids it removes, in
removal order.  ECMAScript `Array.prototype.sort` is stable, modelled by the
stable `List.insertionSort`. -/
def cleanupTracksToRemove (now : Int) (ms : List TrackMeta) : List String :=
  let p1 := cleanupPhase1 now ms
  if p1.2 > maxStorageSize then
    p1.1 ++ cleanupPhase2 p1.2
      (List.insertionSort byAge
        (ms.filter (fun m => !(p1.1.contains m.trackId))))
  else p1.1

/-- Sum of the `fileSize` fields of a list of tracks, as an integer. -/
def sizeSum (ms : List TrackMeta) : Int :=
  (ms.map (fun m => (m.fileSize : Int))).sum

/-- The age predicate of the first phase: `now - lastAccessed > maxAge`. -/
def oldTrack (now : Int) (m : TrackMeta) : Bool :=
  decide (now - m.lastAccessed > maxAge)

/-- The tracks surviving the first phase of `cleanup()`. -/
def remainingTracks (now : Int) (ms : List TrackMeta) : List TrackMeta :=
  ms.filter (fun m => !(oldTrack now m))

/-! ### `initialize()` retry discipline

`initialize()` opens IndexedDB inside `withTimeout(openDatabase(), 10000)`;
an attempt either succeeds within that 10 s per-attempt timeout or counts as
failed.  The loop runs `maxRetries = isSafariIOS() ? 3 : 1` attempts and
sleeps `retryDelay = isSafariIOS() ? 1000 : 500` milliseconds between two
consecutive attempts.  `outcomes.getD i false` tells whether the `(i+1)`-th
attempt would succeed within its timeout. -/

/-- The per-attempt timeout passed to `withTimeout` around `openDatabase()`. -/
def openAttemptTimeoutMs : Nat := 10000

/-- Result of `initialize()`: whether it resolved, how many attempts ran,
and the delays slept between attempts. -/
structure InitResult where
  success : Bool
  attemptsMade : Nat
  delaysMs : List Nat
deriving Repr, DecidableEq

/-- The `while (retryCount < maxRetries)` loop of `initialize()`;
`remaining` is `maxRetries - retryCount`. -/
def openLoop (retryDelay : Nat) (outcomes : List Bool) :
    Nat → Nat → List Nat → InitResult
  | _, 0, delays => { success := false, attemptsMade := 0, delaysMs := delays }
  | attemptIdx, r + 1, delays =>
    if outcomes.getD attemptIdx false then
      { success := true, attemptsMade := attemptIdx + 1, delaysMs := delays }
    else if r == 0 then
      { success := false, attemptsMade := attemptIdx + 1, delaysMs := delays }
    else
      openLoop retryDelay outcomes (attemptIdx + 1) r (delays ++ [retryDelay])

/-- `initialize()` as a function of the platform check `isSafariIOS()` and
the per-attempt outcomes. -/
def initializeModel (isSafariIOS : Bool) (outcomes : List Bool) : InitResult :=
  let maxRetries := if isSafariIOS then 3 else 1
  let retryDelay := if isSafariIOS then 1000 else 500
  openLoop retryDelay outcomes 0 maxRetries []

/-! ### Per-operation timeout wrapping

`withTimeout(promise, 5000)` races the IndexedDB request against a timer
that rejects with the dedicated timeout error.  The behaviour of an
underlying request is either completion at some latency with a value, or
never settling; an operation's observable outcome is `some (result,
settleTimeMs)` or `none` when it never settles. -/

/-- The distinct error kind: the `'Safari IndexedDB operation timeout'`
rejection produced by `withTimeout`. -/
inductive StoreError where
  | timeout
deriving Repr, DecidableEq

/-- Behaviour of one underlying IndexedDB request. -/
inductive DbOutcome (α : Type) where
  | completes (latencyMs : Nat) (value : α)
  | never
deriving Repr, DecidableEq

/-- `withTimeout(op, timeoutMs)`: the race settles with the request's value
if it arrives by the deadline, and with the timeout rejection otherwise. -/
def withTimeout (timeoutMs : Nat) : DbOutcome α → Option (Except StoreError α × Nat)
  | .completes t v =>
    if t ≤ timeoutMs then some (.ok v, t) else some (.error .timeout, timeoutMs)
  | .never => some (.error .timeout, timeoutMs)

/-- A bare (unwrapped) request: settles exactly when the request does. -/
def unwrapped : DbOutcome α → Option (Except StoreError α × Nat)
  | .completes t v => some (.ok v, t)
  | .never => none

/-- `getMetadata` — wrapped in `withTimeout(…, 5000)`; resolves `none` for a
missing record. -/
def getMetadataOp (o : DbOutcome (Option TrackMeta)) :
    Option (Except StoreError (Option TrackMeta) × Nat) :=
  withTimeout 5000 o

/-- `saveMetadata` — wrapped in `withTimeout(…, 5000)`. -/
def saveMetadataOp (o : DbOutcome Unit) :
    Option (Except StoreError Unit × Nat) :=
  withTimeout 5000 o

/-- `saveChunk` — wrapped in `withTimeout(…, 5000)`. -/
def saveChunkOp (o : DbOutcome Unit) :
    Option (Except StoreError Unit × Nat) :=
  withTimeout 5000 o

/-- `getChunk` — wrapped in `withTimeout(…, 5000)`; resolves `none` for a
missing chunk. -/
def getChunkOp (o : DbOutcome (Option (List Nat))) :
    Option (Except StoreError (Option (List Nat)) × Nat) :=
  withTimeout 5000 o

/-- `getAllMetadata` (enumeration) — returns the bare promise, with no
`withTimeout` wrapper in the source. -/
def getAllMetadataOp (o : DbOutcome (List TrackMeta)) :
    Option (Except StoreError (List TrackMeta) × Nat) :=
  unwrapped o

/-- `removeTrack` (bulk deletion by the `trackId` index) — built from bare
promises, with no `withTimeout` wrapper in the source. -/
def removeTrackOp (o : DbOutcome Unit) :
    Option (Except StoreError Unit × Nat) :=
  unwrapped o

/-- `getAvailableChunks` (enumeration by the `trackId` index) — a bare
promise, with no `withTimeout` wrapper in the source. -/
def getAvailableChunksOp (o : DbOutcome (List Nat)) :
    Option (Except StoreError (List Nat) × Nat) :=
  unwrapped o

/-! ### String serialization of `Float32Array` channel payloads

`float32ArrayToString` views the float array's bytes as a `Uint16Array` and
decodes them with `new TextDecoder('utf-16')` (the code path taken whenever
`TextDecoder` exists, i.e. in every browser); `stringToFloat32Array` maps
`charCodeAt` back into a `Uint16Array` and reinterprets its buffer as a
`Float32Array`.  A `Float32Array` is modelled as the list of its 32-bit
words (bit patterns); a JavaScript string as the list of its UTF-16 code
units.  The WHATWG `utf-16` decoder strips a leading byte-order mark and
replaces every unpaired surrogate code unit with U+FFFD. -/

/-- The two little-endian 16-bit halves of a 32-bit word, low half first
(the `Uint16Array` view of a `Float32Array` element). -/
def wordToCodeUnits (w : Nat) : List Nat := [w % 65536, w / 65536 % 65536]

/-- The `Uint16Array` view of a whole `Float32Array`. -/
def floatWordsToCodeUnits (ws : List Nat) : List Nat :=
  (ws.map wordToCodeUnits).flatten

/-- High (lead) surrogate range 0xD800–0xDBFF. -/
def isHighSurrogate (u : Nat) : Bool := decide (55296 ≤ u) && decide (u ≤ 56319)

/-- Low (trail) surrogate range 0xDC00–0xDFFF. -/
def isLowSurrogate (u : Nat) : Bool := decide (56320 ≤ u) && decide (u ≤ 57343)

/-- WHATWG UTF-16 decoding of a code-unit sequence into the code units of
the resulting JavaScript string: valid surrogate pairs survive (an astral
code point is represented in the string by the same pair), every unpaired
surrogate becomes U+FFFD (65533). -/
def utf16Decode : List Nat → List Nat
  | [] => []
  | [u] => if isHighSurrogate u || isLowSurrogate u then [65533] else [u]
  | u :: v :: rest =>
    if isHighSurrogate u then
      if isLowSurrogate v then u :: v :: utf16Decode rest
      else 65533 :: utf16Decode (v :: rest)
    else if isLowSurrogate u then 65533 :: utf16Decode (v :: rest)
    else u :: utf16Decode (v :: rest)

/-- `new TextDecoder('utf-16').decode(u16)`: strip a leading byte-order
mark (code unit 0xFEFF), then decode. -/
def textDecodeUtf16 (units : List Nat) : List Nat :=
  match units with
  | 65279 :: rest => utf16Decode rest
  | _ => utf16Decode units

/-- `float32ArrayToString(f32)` (the `TextDecoder` path), as the code units
of the produced string. -/
def float32ArrayToString (ws : List Nat) : List Nat :=
  textDecodeUtf16 (floatWordsToCodeUnits ws)

/-- Pair consecutive 16-bit units back into 32-bit words (the
`new Float32Array(u16.buffer)` reinterpretation). -/
def codeUnitsToWords : List Nat → List Nat
  | lo :: hi :: rest => (lo + hi * 65536) :: codeUnitsToWords rest
  | _ => []

/-- `stringToFloat32Array(str)`: write `charCodeAt` of every character into
a `Uint16Array` and reinterpret it as a `Float32Array`; the constructor
throws (modelled as `none`) when the byte length is not a multiple of 4. -/
def stringToFloat32Array (s : List Nat) : Option (List Nat) :=
  let u16 := s.map (fun c => c % 65536)
  if u16.length % 2 == 0 then some (codeUnitsToWords u16) else none

/-- `putBlock` then `getBlock` on one channel payload: the store round-trip
`stringToFloat32Array (float32ArrayToString ·)`. -/
def channelRoundTrip (ws : List Nat) : Option (List Nat) :=
  stringToFloat32Array (float32ArrayToString ws)

end AudioChunkStore

namespace BufferChunks

/-- An `AudioBuffer`: `channels` is `getChannelData` per channel, `length`
the per-channel sample count.  Sample values are an abstract type `α` (the
code only copies them). -/
structure AudioBufferM (α : Type) where
  numberOfChannels : Nat
  sampleRate : ℚ
  length : Nat
  channels : List (List α)
deriving Repr, DecidableEq

/-- An `AudioChunk` (decoded form, `channels: Float32Array[]`). -/
structure AudioChunkM (α : Type) where
  trackId : String
  chunkIndex : Nat
  sampleRate : ℚ
  length : Nat
  channels : List (List α)
deriving Repr, DecidableEq

/-- One channel slice of `audioBufferToChunks`: the loop
`for (i = 0; i < length; i++) chunkData[i] = channelData[offset + i]`. -/
def sliceChannel [Inhabited α] (ch : List α) (offset len : Nat) : List α :=
  (List.range len).map (fun i => ch.getD (offset + i) default)

/-- The `for (offset = 0; offset < totalSamples; offset += samplesPerChunk)`
loop of `audioBufferToChunks`.  The guard `0 < spc` makes the recursion
well-founded; with `spc = 0` the JavaScript loop would not terminate. -/
def chunksGo [Inhabited α] (trackId : String) (buf : AudioBufferM α)
    (spc : Nat) (offset : Nat) : List (AudioChunkM α) :=
  if h : offset < buf.length ∧ 0 < spc then
    { trackId := trackId
      chunkIndex := offset / spc
      sampleRate := buf.sampleRate
      length := min spc (buf.length - offset)
      channels := buf.channels.map
        (fun ch => sliceChannel ch offset (min spc (buf.length - offset))) }
      :: chunksGo trackId buf spc (offset + spc)
  else []
termination_by buf.length - offset
decreasing_by omega

/-- `audioBufferToChunks(audioBuffer, trackId)` with
`samplesPerChunk = floor(chunkSizeBytes / (numberOfChannels * 4))`. -/
def audioBufferToChunks [Inhabited α] (chunkSizeBytes : Nat)
    (buf : AudioBufferM α) (trackId : String) : List (AudioChunkM α) :=
  chunksGo trackId buf (chunkSizeBytes / (buf.numberOfChannels * 4)) 0

/-- `TypedArray.prototype.set(src, offset)` on a list. -/
def setAt (tgt src : List α) (offset : Nat) : List α :=
  tgt.take offset ++ src ++ tgt.drop (offset + src.length)

/-- The chunk loop of `mergeChunks`: copy each chunk's channels into the
target at the running offset. -/
def mergeGo : List (List α) → Nat → List (AudioChunkM α) → List (List α)
  | acc, _, [] => acc
  | acc, offset, c :: rest =>
    mergeGo
      (acc.enum.map (fun p => setAt p.2 (c.channels.getD p.1 []) offset))
      (offset + c.length) rest

/-- `mergeChunks(chunks, metadata)`: allocate a zero-filled buffer of the
summed length and copy every chunk in at its running offset. -/
def mergeChunks [Inhabited α] (chunks : List (AudioChunkM α))
    (numberOfChannels : Nat) (sampleRate : ℚ) : AudioBufferM α :=
  let totalLength := (chunks.map (fun c => c.length)).sum
  { numberOfChannels := numberOfChannels
    sampleRate := sampleRate
    length := totalLength
    channels := mergeGo
      (List.replicate numberOfChannels (List.replicate totalLength default))
      0 chunks }

end BufferChunks

namespace AudioWorklet

/-- A buffer queued by `SCHEDULE_BUFFER_SWITCH` (or a finalized chunked
buffer).  `channelData` holds the raw per-channel samples (values abstract,
modelled as rationals since they are only stored). -/
structure SchedBuffer where
  trackId : String
  channelData : List (List ℚ)
  sampleRate : ℚ
  numberOfChannels : Nat
  totalSamples : Nat
  duration : ℚ
  switchTime : Option ℚ
  earlyStopTime : Option ℚ
deriving Repr, DecidableEq

/-- State of `AudioPlaybackProcessor`.  Wall-clock time and sample rates are
exact rationals.  `bufferSourcePosition` is an integer (the clamp
`min(…, totalSamples - 1)` can produce `-1` when `totalSamples = 0`).  The
chunked-assembly table (`pendingChunkedBuffers`) and the logging flags are
not consumed by the modelled transitions and are omitted. -/
structure ProcState where
  isPlaying : Bool
  volume : ℚ
  currentTime : ℚ
  duration : ℚ
  bufferSourcePosition : Int
  audioChannelData : Option (List (List ℚ))
  sampleRate : ℚ
  numberOfChannels : Nat
  totalSamples : Nat
  scheduledBuffers : List SchedBuffer
  currentBufferIndex : Nat
  nextSwitchTime : Option ℚ
  currentBufferEarlyStopTime : Option ℚ
  currentTrackId : Option String
  isIOSSafari : Bool
  iosSampleRate : Option ℚ
deriving Repr, DecidableEq

/-- Payload of a `SET_BUFFER` message. -/
structure SetBufferData where
  trackId : String
  channelData : List (List ℚ)
  sampleRate : ℚ
  numberOfChannels : Nat
  totalSamples : Nat
deriving Repr, DecidableEq

/-- `Math.min` on integers (as a kernel-reducible conditional). -/
def jsMinInt (a b : Int) : Int := if a ≤ b then a else b

/-- `Math.max` on rationals (as a kernel-reducible conditional). -/
def jsMaxQ (a b : ℚ) : ℚ := if a ≤ b then b else a

/-- `this.isIOSSafari && this.iosSampleRate ? this.iosSampleRate :
data.sampleRate` (note `0` is falsy). -/
def effectiveSampleRate (s : ProcState) (dataRate : ℚ) : ℚ :=
  if s.isIOSSafari then
    match s.iosSampleRate with
    | some r => if r = 0 then dataRate else r
    | none => dataRate
  else dataRate

/-- `autoResetForNewSong(newTrackId)`: clear the scheduled queue, reset the
cursor bookkeeping of the progressive-switch machinery, and adopt the new
track id. -/
def autoResetForNewSong (s : ProcState) (newTrackId : String) : ProcState :=
  { s with
    scheduledBuffers := []
    currentBufferIndex := 0
    nextSwitchTime := none
    currentBufferEarlyStopTime := none
    currentTrackId := some newTrackId }

/-- The `SET_BUFFER` message case. -/
def setBuffer (s : ProcState) (d : SetBufferData) : ProcState :=
  let s1 :=
    match s.currentTrackId with
    | some cur =>
      if cur ≠ d.trackId then autoResetForNewSong s d.trackId else s
    | none => { s with currentTrackId := some d.trackId }
  let sr := effectiveSampleRate s1 d.sampleRate
  { s1 with
    audioChannelData := some d.channelData
    sampleRate := sr
    numberOfChannels := d.numberOfChannels
    totalSamples := d.totalSamples
    duration := (d.totalSamples : ℚ) / sr
    currentBufferEarlyStopTime := some (jsMaxQ 0 ((d.totalSamples : ℚ) / sr - 3/4))
    bufferSourcePosition := 0
    currentTime := 0 }

/-- `performBufferSwitch()`: seamlessly replace the active buffer with the
next scheduled one and recompute the sample cursor from the current time
(`Math.floor(this.currentTime * this.sampleRate)` where `this.sampleRate`
has already been set to the next buffer's rate), clamped to the new buffer's
last sample. -/
def performBufferSwitch (s : ProcState) : ProcState :=
  if s.currentBufferIndex + 1 ≥ s.scheduledBuffers.length then
    { s with nextSwitchTime := none }
  else
    match s.scheduledBuffers.get? (s.currentBufferIndex + 1) with
    | none => { s with nextSwitchTime := none }
    | some nextBuffer =>
      let mismatch :=
        match s.currentTrackId with
        | some cur => nextBuffer.trackId != cur
        | none => false
      if mismatch then { s with nextSwitchTime := none }
      else
        let sr := nextBuffer.sampleRate
        let dur := nextBuffer.duration
        let pos : Int :=
          jsMinInt ⌊s.currentTime * sr⌋ ((nextBuffer.totalSamples : Int) - 1)
        let idx := s.currentBufferIndex + 1
        { s with
          audioChannelData := some nextBuffer.channelData
          sampleRate := sr
          numberOfChannels := nextBuffer.numberOfChannels
          totalSamples := nextBuffer.totalSamples
          duration := dur
          currentBufferEarlyStopTime := some (jsMaxQ 0 (dur - 3/4))
          bufferSourcePosition := pos
          currentBufferIndex := idx
          nextSwitchTime :=
            match s.scheduledBuffers.get? (idx + 1) with
            | some nb => nb.switchTime
            | none => none }

/-- The render quantum of the Web Audio API: 128 sample frames per
`process()` call. -/
def renderQuantumFrames : Nat := 128

end AudioWorklet

/-! ## Theorems -/

/-- C3: the claim asserts the channel-payload round-trip (`putBlock` then
`getBlock`, i.e. `stringToFloat32Array ∘ float32ArrayToString`) is
bit-identical for all `Float32Array` contents.  The code evaluated at the
single-sample payload with bit pattern 0x3F00D800 (the ordinary sample
value ≈ 0.50330): its `Uint16Array` view is `[0xD800, 0x3F00]`, an unpaired
high surrogate, which the `TextDecoder('utf-16')` path rewrites to U+FFFD,
so the read-back word is 0x3F00FFFD — the store corrupts the payload. -/
theorem c3_string_roundtrip_corrupts :
    AudioChunkStore.channelRoundTrip [1057019904] = some [1057030141] ∧
    (1057030141 : Nat) ≠ 1057019904 := by
  exact ⟨by decide, by decide⟩

/-- C5 counterexample: with the platform check `isSafariIOS()` false, the
retry budget is 1, so an open sequence that fails twice and would succeed
on the third attempt does not resolve — `initialize()` rejects after the
first failed attempt. -/
theorem c5_counterexample :
    (AudioChunkStore.initializeModel false [false, false, true]).success ≠ true := by
  decide

/-- C5 (amended): only on Safari iOS does `initialize()` run up to 3
attempts, and the delay between consecutive attempts is the constant
1000 ms there (not increasing); on every other platform a single attempt is
made (the 500 ms delay value is never slept) and the result is decided by
the first attempt alone. -/
theorem c5_amended :
    AudioChunkStore.initializeModel true [false, false, true]
      = { success := true, attemptsMade := 3, delaysMs := [1000, 1000] } ∧
    ∀ outcomes : List Bool,
      AudioChunkStore.initializeModel false outcomes
        = { success := outcomes.getD 0 false, attemptsMade := 1, delaysMs := [] } := by
  refine ⟨by decide, fun outcomes => ?_⟩
  rcases outcomes with _ | ⟨b, rest⟩
  · rfl
  · cases b <;> rfl

/-- C9 counterexample: enumeration (`getAllMetadata`) and bulk deletion
(`removeTrack`) are built on bare promises with no `withTimeout` wrapper,
so with an underlying request taking 6000 ms the enumeration settles
successfully at 6000 ms instead of failing with the timeout error at
5000 ms, and a never-settling deletion hangs forever. -/
theorem c9_counterexample :
    AudioChunkStore.getAllMetadataOp (.completes 6000 []) = some (.ok [], 6000) ∧
    AudioChunkStore.getAllMetadataOp (.completes 6000 [])
      ≠ some (.error .timeout, 5000) ∧
    AudioChunkStore.removeTrackOp .never = none := by
  exact ⟨rfl, by simp [AudioChunkStore.getAllMetadataOp, AudioChunkStore.unwrapped], rfl⟩

/-- C9 (amended): the per-record operations (`saveMetadata`, `getMetadata`,
`saveChunk`, `getChunk`) are wrapped in `withTimeout(…, 5000)`: when the
underlying request has not settled by 5000 ms they fail at 5000 ms with the
dedicated timeout error, which is distinct from the not-found result
(`ok none`); enumeration (`getAllMetadata`, `getAvailableChunks`) and bulk
deletion (`removeTrack`) are not wrapped and simply settle whenever (or
never) the underlying request does. -/
theorem c9_amended :
    (∀ (t : Nat) (v : Option AudioChunkStore.TrackMeta), 5000 < t →
      AudioChunkStore.getMetadataOp (.completes t v)
        = some (.error .timeout, 5000)) ∧
    (∀ (t : Nat) (v : Option AudioChunkStore.TrackMeta), t ≤ 5000 →
      AudioChunkStore.getMetadataOp (.completes t v) = some (.ok v, t)) ∧
    AudioChunkStore.getMetadataOp .never = some (.error .timeout, 5000) ∧
    (∀ t : Nat, 5000 < t →
      AudioChunkStore.saveMetadataOp (.completes t ())
        = some (.error .timeout, 5000)) ∧
    (∀ t : Nat, 5000 < t →
      AudioChunkStore.saveChunkOp (.completes t ())
        = some (.error .timeout, 5000)) ∧
    (∀ (t : Nat) (v : Option (List Nat)), 5000 < t →
      AudioChunkStore.getChunkOp (.completes t v)
        = some (.error .timeout, 5000)) ∧
    (∀ m : Option AudioChunkStore.TrackMeta,
      (Except.ok m : Except AudioChunkStore.StoreError _) ≠ .error .timeout) ∧
    (∀ (t : Nat) (v : List AudioChunkStore.TrackMeta),
      AudioChunkStore.getAllMetadataOp (.completes t v) = some (.ok v, t)) ∧
    (∀ t : Nat, AudioChunkStore.removeTrackOp (.completes t ()) = some (.ok (), t)) ∧
    (∀ (t : Nat) (v : List Nat),
      AudioChunkStore.getAvailableChunksOp (.completes t v) = some (.ok v, t)) := by
  refine ⟨?_, ?_, rfl, ?_, ?_, ?_, ?_, ?_, ?_, ?_⟩
  · intro t v h
    simp [AudioChunkStore.getMetadataOp, AudioChunkStore.withTimeout, Nat.not_le.mpr h]
  · intro t v h
    simp [AudioChunkStore.getMetadataOp, AudioChunkStore.withTimeout, h]
  · intro t h
    simp [AudioChunkStore.saveMetadataOp, AudioChunkStore.withTimeout, Nat.not_le.mpr h]
  · intro t h
    simp [AudioChunkStore.saveChunkOp, AudioChunkStore.withTimeout, Nat.not_le.mpr h]
  · intro t v h
    simp [AudioChunkStore.getChunkOp, AudioChunkStore.withTimeout, Nat.not_le.mpr h]
  · intro m h
    cases h
  · intro t v
    rfl
  · intro t
    rfl
  · intro t v
    rfl

/-- Witness for C9 (amended): the hypotheses are satisfiable — at a 6000 ms
underlying latency a wrapped metadata read times out at 5000 ms with the
dedicated error. -/
theorem c9_amended_witness :
    5000 < 6000 ∧
    AudioChunkStore.getMetadataOp (.completes 6000 none)
      = some (.error .timeout, 5000) := by
  exact ⟨by decide, c9_amended.1 6000 none (by decide)⟩

/-- C6 counterexample: a `SET_BUFFER` for the *same* trackId as the current
one does not clear the scheduled-buffer queue — `autoResetForNewSong` runs
only when the track id changes.  Concretely, with track "A" active and one
scheduled buffer queued, `SET_BUFFER` for "A" leaves the queue non-empty,
contradicting "regardless of whether the new buffer's trackId equals the
currently active trackId". -/
theorem c6_counterexample :
    (AudioWorklet.setBuffer
      { isPlaying := false, volume := 1, currentTime := 0, duration := 1
        bufferSourcePosition := 0, audioChannelData := some [[0]]
        sampleRate := 1000, numberOfChannels := 1, totalSamples := 1000
        scheduledBuffers := [⟨"A", [[0]], 1000, 1, 1000, 1, some 2, none⟩]
        currentBufferIndex := 0, nextSwitchTime := some 2
        currentBufferEarlyStopTime := some 1, currentTrackId := some "A"
        isIOSSafari := false, iosSampleRate := none }
      { trackId := "A", channelData := [[0]], sampleRate := 1000
        numberOfChannels := 1, totalSamples := 1000 }).scheduledBuffers
      ≠ [] := by
  simp [AudioWorklet.setBuffer, AudioWorklet.effectiveSampleRate]

/-- C6 (amended): `SET_BUFFER` always resets the cursor to sample 0 and time
0 (it carries no target-position parameter) and always adopts the incoming
trackId, but it replaces the scheduled-buffer queue and switch bookkeeping
only when a song change is detected (a current trackId exists and differs
from the incoming one); a `SET_BUFFER` for the same trackId — or a first
`SET_BUFFER` with buffers already queued — leaves the queue intact. -/
theorem c6_amended (s : AudioWorklet.ProcState) (d : AudioWorklet.SetBufferData) :
    (AudioWorklet.setBuffer s d).bufferSourcePosition = 0 ∧
    (AudioWorklet.setBuffer s d).currentTime = 0 ∧
    (AudioWorklet.setBuffer s d).currentTrackId = some d.trackId ∧
    (AudioWorklet.setBuffer s d).scheduledBuffers =
      (match s.currentTrackId with
        | some cur => if cur ≠ d.trackId then [] else s.scheduledBuffers
        | none => s.scheduledBuffers) ∧
    (AudioWorklet.setBuffer s d).currentBufferIndex =
      (match s.currentTrackId with
        | some cur => if cur ≠ d.trackId then 0 else s.currentBufferIndex
        | none => s.currentBufferIndex) ∧
    (AudioWorklet.setBuffer s d).nextSwitchTime =
      (match s.currentTrackId with
        | some cur => if cur ≠ d.trackId then none else s.nextSwitchTime
        | none => s.nextSwitchTime) := by
  rcases hcur : s.currentTrackId with _ | cur <;>
    simp only [AudioWorklet.setBuffer, AudioWorklet.autoResetForNewSong, hcur]
  · simp
  · by_cases h : cur ≠ d.trackId
    · simp [h]
    · push_neg at h
      subst h
      simp [hcur]

namespace StreamingAssembler

lemma complete_pending_frame (s : AssemblerState) (X : List (Nat × List Nat)) :
    completeCurrentAssembly { s with downloadChunks := X }
      = { completeCurrentAssembly s with downloadChunks := X } := by
  obtain ⟨te, dc, ac, ni, cab, cas, cdc, ipr, pre⟩ := s
  cases cab
  · rfl
  · by_cases h : cdc.length == 0 <;> simp [completeCurrentAssembly, h]

lemma check_pending_frame (o : AssemblerOptions) (s : AssemblerState)
    (X : List (Nat × List Nat)) :
    checkForAssemblyCompletion o { s with downloadChunks := X }
      = { checkForAssemblyCompletion o s with downloadChunks := X } := by
  obtain ⟨te, dc, ac, ni, cab, cas, cdc, ipr, pre⟩ := s
  cases cab with
  | none => rfl
  | some buf =>
    simp only [checkForAssemblyCompletion]
    have hsc : shouldCompleteCurrentAssembly o
        ⟨te, X, ac, ni, some buf, cas, cdc, ipr, pre⟩
        = shouldCompleteCurrentAssembly o
        ⟨te, dc, ac, ni, some buf, cas, cdc, ipr, pre⟩ := rfl
    rw [hsc]
    by_cases h : shouldCompleteCurrentAssembly o
        ⟨te, dc, ac, ni, some buf, cas, cdc, ipr, pre⟩ <;>
      simp only [h, if_true, if_false]
    · exact complete_pending_frame ⟨te, dc, ac, ni, some buf, cas, cdc, ipr, pre⟩ X
    · rfl

lemma process_pending_frame (o : AssemblerOptions) (s : AssemblerState)
    (c : DownloadChunk) (X : List (Nat × List Nat)) :
    processDownloadChunk o { s with downloadChunks := X } c
      = { processDownloadChunk o s c with downloadChunks := X } := by
  obtain ⟨te, dc, ac, ni, cab, cas, cdc, ipr, pre⟩ := s
  simp only [processDownloadChunk]
  exact check_pending_frame o
    ⟨te, dc, ac, ni, some (cab.getD [] ++ c.data), cas + c.data.length,
      cdc ++ [c], ipr, pre⟩ X

lemma process_pending (o : AssemblerOptions) (s : AssemblerState)
    (c : DownloadChunk) :
    (processDownloadChunk o s c).downloadChunks = s.downloadChunks := by
  have h := process_pending_frame o s c s.downloadChunks
  have hs : ({ s with downloadChunks := s.downloadChunks } : AssemblerState) = s := rfl
  rw [hs] at h
  rw [h]

lemma processAvailableChunks_succ (o : AssemblerOptions) (fuel : Nat)
    (s : AssemblerState) :
    processAvailableChunks o (fuel + 1) s =
      match mapGet s.downloadChunks (getNextSequentialIndex s) with
      | none => s
      | some d =>
        processAvailableChunks o fuel
          { processDownloadChunk o s ⟨getNextSequentialIndex s, d⟩ with
            downloadChunks :=
              mapDelete (processDownloadChunk o s
                ⟨getNextSequentialIndex s, d⟩).downloadChunks
                (getNextSequentialIndex s) } := rfl

lemma set_pending_eq (x : AssemblerState) (X : List (Nat × List Nat))
    (h : x.downloadChunks = X) : { x with downloadChunks := X } = x := by
  obtain ⟨a1, a2, a3, a4, a5, a6, a7, a8, a9⟩ := x
  simp only at h
  subst h
  rfl

lemma addDownloadChunk_inOrder (o : AssemblerOptions) (s : AssemblerState)
    (c : DownloadChunk) (hpend : s.downloadChunks = [])
    (hidx : c.index = getNextSequentialIndex s) :
    addDownloadChunk o s c = processDownloadChunk o s c := by
  obtain ⟨te, dc, ac, ni, cab, cas, cdc, ipr, pre⟩ := s
  simp only [AssemblerState.mk.injEq] at hpend hidx ⊢
  subst hpend
  unfold addDownloadChunk
  have hset : mapSet ([] : List (Nat × List Nat)) c.index c.data
      = [(c.index, c.data)] := by
    simp [mapSet]
  rw [hset]
  show processAvailableChunks o (0 + 1)
      ⟨te, [(c.index, c.data)], ac, ni, cab, cas, cdc, ipr, pre⟩ = _
  rw [processAvailableChunks_succ]
  have hseq : getNextSequentialIndex
      ⟨te, [(c.index, c.data)], ac, ni, cab, cas, cdc, ipr, pre⟩ = c.index := by
    rw [hidx]
    rfl
  rw [hseq]
  have hget : mapGet [(c.index, c.data)] c.index = some c.data := by
    simp [mapGet]
  rw [hget]
  show processAvailableChunks o 0
      { processDownloadChunk o ⟨te, [(c.index, c.data)], ac, ni, cab, cas, cdc, ipr, pre⟩
          ⟨c.index, c.data⟩ with
        downloadChunks :=
          mapDelete (processDownloadChunk o
            ⟨te, [(c.index, c.data)], ac, ni, cab, cas, cdc, ipr, pre⟩
            ⟨c.index, c.data⟩).downloadChunks c.index } = _
  have hc : (⟨c.index, c.data⟩ : DownloadChunk) = c := rfl
  rw [hc]
  have hframe := process_pending_frame o
    ⟨te, [], ac, ni, cab, cas, cdc, ipr, pre⟩ c [(c.index, c.data)]
  have hframe' : processDownloadChunk o
      ⟨te, [(c.index, c.data)], ac, ni, cab, cas, cdc, ipr, pre⟩ c
      = { processDownloadChunk o ⟨te, [], ac, ni, cab, cas, cdc, ipr, pre⟩ c with
          downloadChunks := [(c.index, c.data)] } := hframe
  rw [hframe']
  show { processDownloadChunk o ⟨te, [], ac, ni, cab, cas, cdc, ipr, pre⟩ c with
      downloadChunks := mapDelete [(c.index, c.data)] c.index } = _
  have hdel : mapDelete [(c.index, c.data)] c.index = [] := by
    simp [mapDelete]
  rw [hdel]
  exact set_pending_eq _ []
    (process_pending o ⟨te, [], ac, ni, cab, cas, cdc, ipr, pre⟩ c)

lemma process_inv (o : AssemblerOptions) {s : AssemblerState} {k : Nat}
    {B : List Nat} (h : Inv s k B) (c : DownloadChunk) :
    Inv (processDownloadChunk o s c) (k + 1) (B ++ c.data) := by
  obtain ⟨hpend, hidx, hcount, hbytes, hbf, hsize⟩ := h
  obtain ⟨te, dc, ac, ni, cab, cas, cdc, ipr, pre⟩ := s
  simp only at hpend hidx hcount hbytes hbf hsize
  subst hpend
  simp only [processDownloadChunk, checkForAssemblyCompletion]
  split
  · -- sealing case
    simp only [completeCurrentAssembly]
    rw [if_neg (by simp)]
    refine ⟨rfl, ?_, ?_, ?_, by simp, rfl⟩
    · simp only [getNextSequentialIndex] at hcount
      simp only [List.map_append, List.map_cons, List.map_nil, hidx]
      simp [List.range_succ]
    · simp only [getNextSequentialIndex] at hcount ⊢
      simp only [List.map_append, List.map_cons, List.map_nil, List.sum_append,
        List.length_nil, List.length_append, List.length_cons, List.sum_cons,
        List.sum_nil]
      omega
    · simp only [List.map_append, List.map_cons, List.map_nil,
      List.flatten_append, List.flatten_cons, List.flatten_nil,
      List.append_nil, Option.getD_some, Option.getD_none] at hbytes ⊢
      rw [← List.append_assoc, hbytes]
  · -- no seal
    refine ⟨rfl, hidx, ?_, ?_, by simp, by simp [hsize]⟩
    · simp only [getNextSequentialIndex] at hcount ⊢
      simp only [List.length_append, List.length_cons, List.length_nil]
      omega
    · simp only [Option.getD_some]
      rw [← List.append_assoc, hbytes]

lemma abs_shouldComplete (o : AssemblerOptions) (s : AssemblerState) :
    shouldCompleteCurrentAssembly o s = sizeShouldComplete o (absState s) := by
  obtain ⟨te, dc, ac, ni, cab, cas, cdc, ipr, pre⟩ := s
  simp [shouldCompleteCurrentAssembly, sizeShouldComplete, isLastAssemblyChunk,
    sizeIsLast, absState, List.map_map, Function.comp_def]

lemma abs_complete (s : AssemblerState) :
    absState (completeCurrentAssembly s) = sizeComplete (absState s) := by
  obtain ⟨te, dc, ac, ni, cab, cas, cdc, ipr, pre⟩ := s
  cases cab with
  | none => rfl
  | some buf =>
    by_cases h : cdc.length == 0 <;>
      simp [completeCurrentAssembly, sizeComplete, absState, h, List.map_append]

lemma abs_process (o : AssemblerOptions) (s : AssemblerState) (c : DownloadChunk) :
    absState (processDownloadChunk o s c)
      = sizeProcess o (absState s) c.data.length := by
  obtain ⟨te, dc, ac, ni, cab, cas, cdc, ipr, pre⟩ := s
  simp only [processDownloadChunk, checkForAssemblyCompletion, sizeProcess]
  rw [apply_ite absState, abs_complete, abs_shouldComplete]
  have hσ : absState ⟨te, dc, ac, ni, some (cab.getD [] ++ c.data),
      cas + c.data.length, cdc ++ [c], ipr, pre⟩
      = { absState ⟨te, dc, ac, ni, cab, cas, cdc, ipr, pre⟩ with
          currentFrags := (absState ⟨te, dc, ac, ni, cab, cas, cdc, ipr, pre⟩).currentFrags + 1
          currentSize := (absState ⟨te, dc, ac, ni, cab, cas, cdc, ipr, pre⟩).currentSize + c.data.length
          currentIsSome := true } := by
    simp [absState]
  rw [hσ]

lemma abs_finalize (s : AssemblerState) :
    absState (finalizeAssembly s) = sizeFinalize (absState s) := by
  obtain ⟨te, dc, ac, ni, cab, cas, cdc, ipr, pre⟩ := s
  cases cab with
  | none => rfl
  | some buf =>
    simp only [finalizeAssembly, sizeFinalize, absState, Option.isSome_some,
      if_true]
    by_cases h : cdc.length > 0
    · rw [if_pos h, if_pos h]
      exact abs_complete ⟨te, dc, ac, ni, some buf, cas, cdc, ipr, pre⟩
    · rw [if_neg h, if_neg h]
      rfl

lemma initState_inv (total : Nat) : Inv (initState total) 0 [] :=
  ⟨rfl, rfl, rfl, rfl, by simp [initState], rfl⟩

lemma feedFrom_spec (o : AssemblerOptions) (rest : List (List Nat)) :
    ∀ (k : Nat) (s : AssemblerState) (B : List Nat), Inv s k B →
    Inv (feedFrom o k s rest) (k + rest.length) (B ++ rest.flatten) ∧
    absState (feedFrom o k s rest)
      = (rest.map List.length).foldl (sizeProcess o) (absState s) := by
  induction rest with
  | nil =>
    intro k s B h
    refine ⟨?_, rfl⟩
    simpa using h
  | cons d rest ih =>
    intro k s B h
    have hadd : addDownloadChunk o s ⟨k, d⟩ = processDownloadChunk o s ⟨k, d⟩ :=
      addDownloadChunk_inOrder o s ⟨k, d⟩ h.pending (h.count.symm)
    have h1 : Inv (processDownloadChunk o s ⟨k, d⟩) (k + 1) (B ++ d) :=
      process_inv o h ⟨k, d⟩
    have IH := ih (k + 1) (processDownloadChunk o s ⟨k, d⟩) (B ++ d) h1
    constructor
    · have := IH.1
      simp only [feedFrom, hadd]
      have hk : k + 1 + rest.length = k + (d :: rest).length := by
        simp
        omega
      have hB : (B ++ d) ++ rest.flatten = B ++ (d :: rest).flatten := by
        simp [List.flatten_cons, List.append_assoc]
      rw [hk, hB] at this
      exact this
    · simp only [feedFrom, hadd, List.map_cons, List.foldl_cons]
      rw [IH.2, abs_process]

lemma finalize_props {s : AssemblerState} {k : Nat} {B : List Nat}
    (h : Inv s k B) :
    ((finalizeAssembly s).assembledChunks.map (fun c => c.data)).flatten = B ∧
    (finalizeAssembly s).assembledChunks.map (fun c => c.storageIndex)
      = List.range (finalizeAssembly s).nextStorageIndex ∧
    (finalizeAssembly s).downloadChunks = [] ∧
    (finalizeAssembly s).currentAssemblyBuffer = none := by
  obtain ⟨hpend, hidx, hcount, hbytes, hbf, hsize⟩ := h
  obtain ⟨te, dc, ac, ni, cab, cas, cdc, ipr, pre⟩ := s
  simp only at hpend hidx hcount hbytes hbf hsize
  subst hpend
  cases cab with
  | none =>
    simp only [Option.getD_none, List.append_nil] at hbytes
    exact ⟨hbytes, hidx, rfl, rfl⟩
  | some buf =>
    have hcdc : cdc ≠ [] := by
      intro hc
      have := hbf.mpr hc
      cases this
    simp only [finalizeAssembly]
    rw [if_pos (by simpa [List.length_pos] using hcdc)]
    simp only [completeCurrentAssembly]
    rw [if_neg (by simpa using hcdc)]
    refine ⟨?_, ?_, rfl, rfl⟩
    · simp only [Option.getD_some] at hbytes
      simp only [List.map_append, List.map_cons, List.map_nil,
        List.flatten_append, List.flatten_cons, List.flatten_nil,
        List.append_nil]
      exact hbytes
    · simp only [List.map_append, List.map_cons, List.map_nil, hidx]
      simp [List.range_succ]

lemma range'_filterMap_find (l : List AssemblyChunk) :
    ∀ (a n : Nat), l.map (fun c => c.storageIndex) = List.range' a n →
    (List.range' a n).filterMap
      (fun i => l.find? (fun c => c.storageIndex == i)) = l := by
  induction l with
  | nil =>
    intro a n h
    have hn : n = 0 := by
      cases n with
      | zero => rfl
      | succ m => simp [List.range'_succ] at h
    subst hn
    rfl
  | cons x t ih =>
    intro a n h
    cases n with
    | zero => simp at h
    | succ m =>
      rw [List.range'_succ] at h ⊢
      simp only [List.map_cons, List.cons.injEq] at h
      obtain ⟨hx, ht⟩ := h
      simp only [List.filterMap_cons]
      rw [List.find?_cons_of_pos _ (by simp [hx])]
      have hrest : (List.range' (a + 1) m).filterMap
          (fun i => (x :: t).find? (fun c => c.storageIndex == i))
          = (List.range' (a + 1) m).filterMap
          (fun i => t.find? (fun c => c.storageIndex == i)) := by
        apply List.filterMap_congr
        intro i hi
        have hia : a + 1 ≤ i := (List.mem_range'_1.mp hi).1
        rw [List.find?_cons_of_neg _ (by simp [hx]; omega)]
      rw [hrest, ih (a + 1) m ht]

lemma getAssembled_eq {s : AssemblerState}
    (hidx : s.assembledChunks.map (fun c => c.storageIndex)
      = List.range s.nextStorageIndex) :
    getAssembledChunks s = s.assembledChunks := by
  unfold getAssembledChunks
  rw [List.range_eq_range'] at hidx ⊢
  exact range'_filterMap_find _ 0 _ hidx

end StreamingAssembler

/-- C1: when the download fragments arrive with consecutive sequence indices
(strictly increasing delivery) and their cumulative size equals the declared
total, concatenating the emitted AssembledBlock payloads in storageIndex
order after `finalize()` reproduces the original input bytes exactly. -/
theorem c1_assembler_roundtrip (o : StreamingAssembler.AssemblerOptions)
    (total : Nat) (fs : List (List Nat))
    (htotal : (fs.map List.length).sum = total) :
    ((StreamingAssembler.getAssembledChunks
        (StreamingAssembler.runAssembler o total fs)).map
      (fun c => c.data)).flatten = fs.flatten := by
  have hspec := StreamingAssembler.feedFrom_spec o fs 0
    (StreamingAssembler.initState total) [] (StreamingAssembler.initState_inv total)
  have hfin := StreamingAssembler.finalize_props hspec.1
  show ((StreamingAssembler.getAssembledChunks
      (StreamingAssembler.finalizeAssembly
        (StreamingAssembler.feedFrom o 0 (StreamingAssembler.initState total) fs))).map
      (fun c => c.data)).flatten = fs.flatten
  rw [StreamingAssembler.getAssembled_eq hfin.2.1]
  simpa using hfin.1

/-- Witness for C1: a two-fragment run (sizes 2 and 1, declared total 3)
with playback target 2 and storage target 4 reproduces the bytes
`[1, 2, 3]`. -/
theorem c1_witness :
    ((([[1, 2], [3]] : List (List Nat)).map List.length).sum = 3) ∧
    ((StreamingAssembler.getAssembledChunks
        (StreamingAssembler.runAssembler ⟨4, 2⟩ 3 [[1, 2], [3]])).map
      (fun c => c.data)).flatten = ([[1, 2], [3]] : List (List Nat)).flatten :=
  ⟨by decide, c1_assembler_roundtrip ⟨4, 2⟩ 3 [[1, 2], [3]] (by decide)⟩

/-- C7 counterexample: the assembler retains sealed blocks.  After one
fragment `[5, 6]` is sealed (playback target 2, total 2), the state's
`assembledChunks` map is non-empty — the sealed block, payload included,
is still held, contradicting "retains no previously sealed blocks". -/
theorem c7_counterexample :
    (StreamingAssembler.runAssembler ⟨4, 2⟩ 2 [[5, 6]]).assembledChunks ≠ [] := by
  decide

/-- C7 (amended): the assembler does release consumed download fragments
(the pending `downloadChunks` map is empty after an in-order run), but it
retains every sealed block in its `assembledChunks` map — exactly the
blocks `getAssembledChunks()` returns, whose payloads concatenate to the
whole processed input — so retained memory is O(file size), not O(one
in-progress block). -/
theorem c7_amended (o : StreamingAssembler.AssemblerOptions) (total : Nat)
    (fs : List (List Nat)) :
    (StreamingAssembler.runAssembler o total fs).downloadChunks = [] ∧
    (StreamingAssembler.runAssembler o total fs).assembledChunks
      = StreamingAssembler.getAssembledChunks
          (StreamingAssembler.runAssembler o total fs) ∧
    ((StreamingAssembler.runAssembler o total fs).assembledChunks.map
      (fun c => c.data)).flatten = fs.flatten := by
  have hspec := StreamingAssembler.feedFrom_spec o fs 0
    (StreamingAssembler.initState total) [] (StreamingAssembler.initState_inv total)
  have hfin := StreamingAssembler.finalize_props hspec.1
  refine ⟨hfin.2.2.1, ?_, by simpa using hfin.1⟩
  exact (StreamingAssembler.getAssembled_eq hfin.2.1).symm

set_option maxRecDepth 4000 in
/-- C8: assembling a 10 MB file (10485760 bytes) from forty 256 KB download
fragments with playback chunk size 256 KB (262144) and storage chunk size
2 MB (2097152) yields exactly six blocks of sizes 256 KB, 4 × 2 MB, and a
final partial 1792 KB block; only block 0 has `canStartPlayback = true`,
and the `onPlaybackReady` event fires exactly once, for storage index 0. -/
theorem c8_scenario (fs : List (List Nat))
    (h : fs.map List.length = List.replicate 40 262144) :
    ((StreamingAssembler.getAssembledChunks
        (StreamingAssembler.runAssembler ⟨2097152, 262144⟩ 10485760 fs)).map
      (fun c => c.totalSize))
      = [262144, 2097152, 2097152, 2097152, 2097152, 1835008] ∧
    ((StreamingAssembler.getAssembledChunks
        (StreamingAssembler.runAssembler ⟨2097152, 262144⟩ 10485760 fs)).map
      (fun c => c.canStartPlayback))
      = [true, false, false, false, false, false] ∧
    (StreamingAssembler.runAssembler ⟨2097152, 262144⟩ 10485760 fs).playbackReadyEvents
      = [0] := by
  have hspec := StreamingAssembler.feedFrom_spec ⟨2097152, 262144⟩ fs 0
    (StreamingAssembler.initState 10485760) []
    (StreamingAssembler.initState_inv 10485760)
  have hfin := StreamingAssembler.finalize_props hspec.1
  have hget : StreamingAssembler.getAssembledChunks
      (StreamingAssembler.runAssembler ⟨2097152, 262144⟩ 10485760 fs)
      = (StreamingAssembler.runAssembler ⟨2097152, 262144⟩ 10485760
          fs).assembledChunks :=
    StreamingAssembler.getAssembled_eq hfin.2.1
  have habs : StreamingAssembler.absState
      (StreamingAssembler.runAssembler ⟨2097152, 262144⟩ 10485760 fs)
      = StreamingAssembler.sizeRun ⟨2097152, 262144⟩ 10485760
          (List.replicate 40 262144) := by
    show StreamingAssembler.absState
      (StreamingAssembler.finalizeAssembly
        (StreamingAssembler.feedFrom ⟨2097152, 262144⟩ 0
          (StreamingAssembler.initState 10485760) fs)) = _
    rw [StreamingAssembler.abs_finalize, hspec.2, h]
    rfl
  have hσ : StreamingAssembler.sizeRun ⟨2097152, 262144⟩ 10485760
      (List.replicate 40 262144)
      = { total := 10485760
          assembled := [(262144, true), (2097152, false), (2097152, false),
            (2097152, false), (2097152, false), (1835008, false)]
          nextStorageIndex := 6, currentSize := 0, currentFrags := 0
          currentIsSome := false, isPlaybackReady := true
          events := [0] } := by
    decide
  have h1 : (StreamingAssembler.runAssembler ⟨2097152, 262144⟩ 10485760
        fs).assembledChunks.map (fun c => c.totalSize)
      = ((StreamingAssembler.absState
          (StreamingAssembler.runAssembler ⟨2097152, 262144⟩ 10485760
            fs)).assembled).map Prod.fst := by
    simp [StreamingAssembler.absState, List.map_map, Function.comp_def]
  have h2 : (StreamingAssembler.runAssembler ⟨2097152, 262144⟩ 10485760
        fs).assembledChunks.map (fun c => c.canStartPlayback)
      = ((StreamingAssembler.absState
          (StreamingAssembler.runAssembler ⟨2097152, 262144⟩ 10485760
            fs)).assembled).map Prod.snd := by
    simp [StreamingAssembler.absState, List.map_map, Function.comp_def]
  have h3 : (StreamingAssembler.runAssembler ⟨2097152, 262144⟩ 10485760
        fs).playbackReadyEvents
      = (StreamingAssembler.absState
          (StreamingAssembler.runAssembler ⟨2097152, 262144⟩ 10485760
            fs)).events := rfl
  refine ⟨?_, ?_, ?_⟩
  · rw [hget, h1, habs, hσ]
    rfl
  · rw [hget, h2, habs, hσ]
    rfl
  · rw [h3, habs, hσ]

/-- Witness for C8: forty fragments of 262144 zero bytes each satisfy the
size hypothesis, and the first conclusion holds for them. -/
theorem c8_witness :
    ((List.replicate 40 (List.replicate 262144 (0 : Nat))).map List.length
      = List.replicate 40 262144) ∧
    ((StreamingAssembler.getAssembledChunks
        (StreamingAssembler.runAssembler ⟨2097152, 262144⟩ 10485760
          (List.replicate 40 (List.replicate 262144 (0 : Nat))))).map
      (fun c => c.totalSize))
      = [262144, 2097152, 2097152, 2097152, 2097152, 1835008] :=
  ⟨by simp only [List.map_replicate, List.length_replicate],
    (c8_scenario (List.replicate 40 (List.replicate 262144 (0 : Nat)))
      (by simp only [List.map_replicate, List.length_replicate])).1⟩

namespace AudioChunkStore

lemma phase1_fold (now : Int) :
    ∀ (ms : List TrackMeta) (a : List String) (t : Int),
    ms.foldl
      (fun acc m =>
        if now - m.lastAccessed > maxAge then
          (acc.1 ++ [m.trackId], acc.2 - (m.fileSize : Int))
        else acc) (a, t)
      = (a ++ (ms.filter (oldTrack now)).map (fun m => m.trackId),
         t - sizeSum (ms.filter (oldTrack now))) := by
  intro ms
  induction ms with
  | nil => intro a t; simp [sizeSum]
  | cons m rest ih =>
    intro a t
    by_cases h : now - m.lastAccessed > maxAge
    · simp only [List.foldl_cons, if_pos h]
      rw [ih]
      have hm : oldTrack now m = true := by simp [oldTrack, h]
      simp [List.filter_cons, hm, sizeSum, List.append_assoc]
      omega
    · simp only [List.foldl_cons, if_neg h]
      rw [ih]
      have hm : oldTrack now m = false := by simp [oldTrack, h]
      simp [List.filter_cons, hm]

lemma phase1_eq (now : Int) (ms : List TrackMeta) :
    cleanupPhase1 now ms
      = ((ms.filter (oldTrack now)).map (fun m => m.trackId),
         sizeSum ms - sizeSum (ms.filter (oldTrack now))) := by
  unfold cleanupPhase1
  rw [phase1_fold]
  simp [sizeSum]

lemma sizeSum_filter_split (p : TrackMeta → Bool) (ms : List TrackMeta) :
    sizeSum ms = sizeSum (ms.filter p) + sizeSum (ms.filter (fun m => !(p m))) := by
  induction ms with
  | nil => simp [sizeSum]
  | cons m rest ih =>
    by_cases h : p m <;> simp [sizeSum, List.filter_cons, h] at ih ⊢ <;> linarith

lemma phase1_snd_eq (now : Int) (ms : List TrackMeta) :
    (cleanupPhase1 now ms).2 = sizeSum (remainingTracks now ms) := by
  rw [phase1_eq]
  have := sizeSum_filter_split (oldTrack now) ms
  simp only [remainingTracks]
  omega

lemma phase1_mem (now : Int) (ms : List TrackMeta)
    (hnodup : (ms.map (fun m => m.trackId)).Nodup) (m : TrackMeta)
    (hm : m ∈ ms) :
    m.trackId ∈ (cleanupPhase1 now ms).1 ↔ oldTrack now m = true := by
  rw [phase1_eq]
  simp only [List.mem_map]
  constructor
  · rintro ⟨m', hm', hid⟩
    obtain ⟨hm'mem, hm'old⟩ := List.mem_filter.mp hm'
    have : m' = m := List.inj_on_of_nodup_map hnodup hm'mem hm hid
    rw [← this]
    exact hm'old
  · intro hold
    exact ⟨m, List.mem_filter.mpr ⟨hm, hold⟩, rfl⟩

lemma contains_filter_eq (now : Int) (ms : List TrackMeta)
    (hnodup : (ms.map (fun m => m.trackId)).Nodup) :
    ms.filter (fun m => !((cleanupPhase1 now ms).1.contains m.trackId))
      = remainingTracks now ms := by
  unfold remainingTracks
  apply List.filter_congr
  intro m hm
  have hiff := phase1_mem now ms hnodup m hm
  have hcont : (cleanupPhase1 now ms).1.contains m.trackId
      = oldTrack now m := by
    by_cases h : oldTrack now m = true
    · rw [h]
      rw [← List.elem_iff] at hiff
      exact hiff.mpr h
    · have hfalse : oldTrack now m = false := by
        cases hb : oldTrack now m
        · rfl
        · exact absurd hb h
      rw [hfalse]
      have hnotmem : m.trackId ∉ (cleanupPhase1 now ms).1 := fun hc =>
        h (hiff.mp hc)
      cases hb : (cleanupPhase1 now ms).1.contains m.trackId
      · rfl
      · exact absurd (List.elem_iff.mp hb) hnotmem
  rw [hcont]

lemma phase2_spec :
    ∀ (l : List TrackMeta) (total : Int),
    total - sizeSum l ≤ maxStorageSize →
    ∃ k, cleanupPhase2 total l = ((l.take k).map (fun m => m.trackId)) ∧
      total - sizeSum (l.take k) ≤ maxStorageSize ∧
      ∀ j < k, total - sizeSum (l.take j) > maxStorageSize := by
  intro l
  induction l with
  | nil =>
    intro total h
    refine ⟨0, rfl, ?_, by omega⟩
    simpa [sizeSum] using h
  | cons m rest ih =>
    intro total h
    by_cases hle : total ≤ maxStorageSize
    · refine ⟨0, ?_, by simpa [sizeSum], by omega⟩
      unfold cleanupPhase2
      rw [if_pos hle]
      simp
    · have hpre : (total - (m.fileSize : Int)) - sizeSum rest ≤ maxStorageSize := by
        simp only [sizeSum, List.map_cons, List.sum_cons] at h ⊢
        omega
      obtain ⟨k, hk, hbud, hmin⟩ := ih (total - (m.fileSize : Int)) hpre
      refine ⟨k + 1, ?_, ?_, ?_⟩
      · unfold cleanupPhase2
        rw [if_neg hle]
        simp only [List.take_succ_cons, List.map_cons]
        rw [hk]
      · simpa [sizeSum, List.take_succ_cons, sub_sub] using hbud
      · intro j hj
        cases j with
        | zero => simpa [sizeSum] using hle
        | succ j' =>
          have := hmin j' (by omega)
          simpa [sizeSum, List.take_succ_cons, sub_sub] using this

end AudioChunkStore

/-- C4: `cleanup()` removes exactly the tracks whose `lastAccessed` age
exceeds `maxAge` in its first phase; if the remaining tracks' cumulative
size is within the 1 GiB budget nothing else is removed, and otherwise it
additionally removes a minimal oldest-first prefix of the remaining tracks
(stably sorted by `lastAccessed`) until the total is within budget. -/
theorem c4_eviction (now : Int) (ms : List AudioChunkStore.TrackMeta)
    (hnodup : (ms.map (fun m => m.trackId)).Nodup) :
    (∀ m ∈ ms, (m.trackId ∈ (AudioChunkStore.cleanupPhase1 now ms).1
        ↔ AudioChunkStore.oldTrack now m = true)) ∧
    List.Sorted AudioChunkStore.byAge
      (List.insertionSort AudioChunkStore.byAge
        (AudioChunkStore.remainingTracks now ms)) ∧
    (AudioChunkStore.sizeSum (AudioChunkStore.remainingTracks now ms)
        ≤ AudioChunkStore.maxStorageSize →
      AudioChunkStore.cleanupTracksToRemove now ms
        = (AudioChunkStore.cleanupPhase1 now ms).1) ∧
    (AudioChunkStore.sizeSum (AudioChunkStore.remainingTracks now ms)
        > AudioChunkStore.maxStorageSize →
      ∃ k, AudioChunkStore.cleanupTracksToRemove now ms
          = (AudioChunkStore.cleanupPhase1 now ms).1
            ++ (((List.insertionSort AudioChunkStore.byAge
                (AudioChunkStore.remainingTracks now ms)).take k).map
                (fun m => m.trackId)) ∧
        AudioChunkStore.sizeSum (AudioChunkStore.remainingTracks now ms)
          - AudioChunkStore.sizeSum ((List.insertionSort AudioChunkStore.byAge
              (AudioChunkStore.remainingTracks now ms)).take k)
          ≤ AudioChunkStore.maxStorageSize ∧
        ∀ j < k,
          AudioChunkStore.sizeSum (AudioChunkStore.remainingTracks now ms)
            - AudioChunkStore.sizeSum ((List.insertionSort AudioChunkStore.byAge
                (AudioChunkStore.remainingTracks now ms)).take j)
            > AudioChunkStore.maxStorageSize) := by
  have hsorted := List.sorted_insertionSort AudioChunkStore.byAge
    (AudioChunkStore.remainingTracks now ms)
  have hsum : AudioChunkStore.sizeSum
      (List.insertionSort AudioChunkStore.byAge
        (AudioChunkStore.remainingTracks now ms))
      = AudioChunkStore.sizeSum (AudioChunkStore.remainingTracks now ms) := by
    unfold AudioChunkStore.sizeSum
    exact ((List.perm_insertionSort AudioChunkStore.byAge
      (AudioChunkStore.remainingTracks now ms)).map _).sum_eq
  refine ⟨AudioChunkStore.phase1_mem now ms hnodup, hsorted, ?_, ?_⟩
  · intro hle
    unfold AudioChunkStore.cleanupTracksToRemove
    simp only
    rw [AudioChunkStore.phase1_snd_eq]
    rw [if_neg (not_lt.mpr hle)]
  · intro hgt
    unfold AudioChunkStore.cleanupTracksToRemove
    simp only
    rw [AudioChunkStore.phase1_snd_eq,
      AudioChunkStore.contains_filter_eq now ms hnodup]
    rw [if_pos hgt]
    have hpre : AudioChunkStore.sizeSum (AudioChunkStore.remainingTracks now ms)
        - AudioChunkStore.sizeSum (List.insertionSort AudioChunkStore.byAge
            (AudioChunkStore.remainingTracks now ms))
        ≤ AudioChunkStore.maxStorageSize := by
      rw [hsum]
      simp
      decide
    obtain ⟨k, hk, hbud, hmin⟩ := AudioChunkStore.phase2_spec
      (List.insertionSort AudioChunkStore.byAge
        (AudioChunkStore.remainingTracks now ms))
      (AudioChunkStore.sizeSum (AudioChunkStore.remainingTracks now ms)) hpre
    exact ⟨k, by rw [hk], hbud, hmin⟩

/-- Witness for C4: two tracks, one older than `maxAge`, with the remaining
track within budget — only the old track is evicted. -/
theorem c4_witness :
    ((([⟨"a", 10, 0⟩, ⟨"b", 20, 999999999999⟩] :
        List AudioChunkStore.TrackMeta).map (fun m => m.trackId)).Nodup) ∧
    AudioChunkStore.sizeSum (AudioChunkStore.remainingTracks 1000000000000
        [⟨"a", 10, 0⟩, ⟨"b", 20, 999999999999⟩])
      ≤ AudioChunkStore.maxStorageSize ∧
    AudioChunkStore.cleanupTracksToRemove 1000000000000
        [⟨"a", 10, 0⟩, ⟨"b", 20, 999999999999⟩]
      = (AudioChunkStore.cleanupPhase1 1000000000000
          [⟨"a", 10, 0⟩, ⟨"b", 20, 999999999999⟩]).1 :=
  ⟨by decide, by decide,
    (c4_eviction 1000000000000 [⟨"a", 10, 0⟩, ⟨"b", 20, 999999999999⟩]
      (by decide)).2.2.1 (by decide)⟩

/-- C2 counterexample: `performBufferSwitch` computes the new sample offset
with `Math.floor(currentTime * sampleRate)` (then clamps), not with
`Math.round`.  At `currentTime = 10.5 s` and a next-buffer sample rate of
1 Hz the code yields offset 10 while `round(timeAtSwitch * newSampleRate)`
is 11. -/
theorem c2_counterexample :
    (AudioWorklet.performBufferSwitch
      { isPlaying := true, volume := 1, currentTime := 21/2, duration := 100000
        bufferSourcePosition := 10, audioChannelData := some [[0]]
        sampleRate := 1, numberOfChannels := 1, totalSamples := 100000
        scheduledBuffers :=
          [⟨"t", [[0]], 1, 1, 100000, 100000, some 0, none⟩,
           ⟨"t", [[0]], 1, 1, 100000, 100000, some 10, none⟩]
        currentBufferIndex := 0, nextSwitchTime := some 10
        currentBufferEarlyStopTime := some 10, currentTrackId := some "t"
        isIOSSafari := false, iosSampleRate := none }).bufferSourcePosition
      ≠ round ((21/2 : ℚ) * 1) := by
  have h1 : (AudioWorklet.performBufferSwitch
      { isPlaying := true, volume := 1, currentTime := 21/2, duration := 100000
        bufferSourcePosition := 10, audioChannelData := some [[0]]
        sampleRate := 1, numberOfChannels := 1, totalSamples := 100000
        scheduledBuffers :=
          [⟨"t", [[0]], 1, 1, 100000, 100000, some 0, none⟩,
           ⟨"t", [[0]], 1, 1, 100000, 100000, some 10, none⟩]
        currentBufferIndex := 0, nextSwitchTime := some 10
        currentBufferEarlyStopTime := some 10, currentTrackId := some "t"
        isIOSSafari := false, iosSampleRate := none }).bufferSourcePosition = 10 := by
    simp only [AudioWorklet.performBufferSwitch]
    norm_num [AudioWorklet.jsMinInt]
  have h2 : round ((21/2 : ℚ) * 1) = 11 := by norm_num [round_eq]
  rw [h1, h2]
  decide

/-- C2 (amended): on a seamless switch the new sample offset is
`min(floor(timeAtSwitch * newSampleRate), totalSamples - 1)` — floor, not
round; when the clamp does not bite, the wall-clock position after the
switch is within one sample period (a fortiori within one 128-frame render
quantum) of the pre-switch position. -/
theorem c2_amended (s : AudioWorklet.ProcState) (b : AudioWorklet.SchedBuffer)
    (hget : s.scheduledBuffers.get? (s.currentBufferIndex + 1) = some b)
    (htrack : s.currentTrackId = some b.trackId) :
    (AudioWorklet.performBufferSwitch s).bufferSourcePosition
      = AudioWorklet.jsMinInt ⌊s.currentTime * b.sampleRate⌋
          ((b.totalSamples : Int) - 1) ∧
    (0 ≤ s.currentTime → 0 < b.sampleRate →
      ⌊s.currentTime * b.sampleRate⌋ ≤ (b.totalSamples : Int) - 1 →
      |((AudioWorklet.performBufferSwitch s).bufferSourcePosition : ℚ)
          / b.sampleRate - s.currentTime| < 1 / b.sampleRate ∧
      |((AudioWorklet.performBufferSwitch s).bufferSourcePosition : ℚ)
          / b.sampleRate - s.currentTime|
        < (AudioWorklet.renderQuantumFrames : ℚ) / b.sampleRate) := by
  have hlt : s.currentBufferIndex + 1 < s.scheduledBuffers.length := by
    obtain ⟨h, -⟩ := List.get?_eq_some.mp hget
    exact h
  have hpos : (AudioWorklet.performBufferSwitch s).bufferSourcePosition
      = AudioWorklet.jsMinInt ⌊s.currentTime * b.sampleRate⌋
          ((b.totalSamples : Int) - 1) := by
    simp only [AudioWorklet.performBufferSwitch, hget, htrack]
    rw [if_neg (by omega)]
    simp
  refine ⟨hpos, fun ht hR hclamp => ?_⟩
  rw [hpos, AudioWorklet.jsMinInt, if_pos hclamp]
  set t := s.currentTime with hT
  set R := b.sampleRate with hRdef
  set f : ℤ := ⌊t * R⌋ with hf
  have h1 : (f : ℚ) ≤ t * R := Int.floor_le _
  have h2 : t * R - 1 < (f : ℚ) := Int.sub_one_lt_floor _
  have hRne : R ≠ 0 := ne_of_gt hR
  have hdiff : (f : ℚ) / R - t = -((t * R - f) / R) := by
    field_simp
    ring
  have hnn : (0 : ℚ) ≤ (t * R - f) / R :=
    div_nonneg (by linarith) hR.le
  have habs : |(f : ℚ) / R - t| = (t * R - f) / R := by
    rw [hdiff, abs_neg, abs_of_nonneg hnn]
  have hlt1 : |(f : ℚ) / R - t| < 1 / R := by
    rw [habs, div_lt_div_iff_of_pos_right hR]
    linarith
  refine ⟨hlt1, lt_of_lt_of_le hlt1 ?_⟩
  rw [div_le_div_iff_of_pos_right hR]
  norm_num [AudioWorklet.renderQuantumFrames]

/-- Witness for C2 (amended): a concrete reachable switch (current time 0,
next buffer at 1 Hz with 5 samples) satisfying every hypothesis. -/
theorem c2_amended_witness :
    (([⟨"t", [[0]], 1, 1, 5, 5, some 0, none⟩,
       ⟨"t", [[0]], 1, 1, 5, 5, some 3, none⟩] :
        List AudioWorklet.SchedBuffer).get? (0 + 1)
      = some ⟨"t", [[0]], 1, 1, 5, 5, some 3, none⟩) ∧
    |((AudioWorklet.performBufferSwitch
      { isPlaying := true, volume := 1, currentTime := 0, duration := 5
        bufferSourcePosition := 0, audioChannelData := some [[0]]
        sampleRate := 1, numberOfChannels := 1, totalSamples := 5
        scheduledBuffers :=
          [⟨"t", [[0]], 1, 1, 5, 5, some 0, none⟩,
           ⟨"t", [[0]], 1, 1, 5, 5, some 3, none⟩]
        currentBufferIndex := 0, nextSwitchTime := some 3
        currentBufferEarlyStopTime := some 3, currentTrackId := some "t"
        isIOSSafari := false, iosSampleRate := none }).bufferSourcePosition : ℚ)
        / 1 - 0| < 1 / 1 := by
  refine ⟨rfl, ?_⟩
  have h := (c2_amended
    { isPlaying := true, volume := 1, currentTime := 0, duration := 5
      bufferSourcePosition := 0, audioChannelData := some [[0]]
      sampleRate := 1, numberOfChannels := 1, totalSamples := 5
      scheduledBuffers :=
        [⟨"t", [[0]], 1, 1, 5, 5, some 0, none⟩,
         ⟨"t", [[0]], 1, 1, 5, 5, some 3, none⟩]
      currentBufferIndex := 0, nextSwitchTime := some 3
      currentBufferEarlyStopTime := some 3, currentTrackId := some "t"
      isIOSSafari := false, iosSampleRate := none }
    ⟨"t", [[0]], 1, 1, 5, 5, some 3, none⟩ rfl rfl).2
    (le_refl 0) (by norm_num) (by norm_num)
  exact h.1


namespace BufferChunks

lemma sliceChannel_length {α : Type} [Inhabited α] (ch : List α)
    (offset len : Nat) : (sliceChannel ch offset len).length = len := by
  simp [sliceChannel]

lemma sliceChannel_eq_drop_take {α : Type} [Inhabited α] (ch : List α)
    (offset len : Nat) (h : offset + len ≤ ch.length) :
    sliceChannel ch offset len = (ch.drop offset).take len := by
  apply List.ext_getElem
  · simp [sliceChannel]
    omega
  · intro i h1 h2
    simp only [sliceChannel, List.getElem_map, List.getElem_range,
      List.getElem_take, List.getElem_drop]
    rw [List.getD_eq_getElem ch default (by simp [sliceChannel] at h1; omega)]

lemma chunksGo_sum {α : Type} [Inhabited α] (tid : String)
    (buf : AudioBufferM α) (spc : Nat) (hspc : 0 < spc) (offset : Nat) :
    ((chunksGo tid buf spc offset).map (fun c => c.length)).sum
      = buf.length - offset := by
  rw [chunksGo]
  by_cases h : offset < buf.length ∧ 0 < spc
  · rw [dif_pos h]
    simp only [List.map_cons, List.sum_cons]
    rw [chunksGo_sum tid buf spc hspc (offset + spc)]
    omega
  · rw [dif_neg h]
    have hge : ¬ offset < buf.length := fun hlt => h ⟨hlt, hspc⟩
    simp only [List.map_nil, List.sum_nil]
    omega
termination_by buf.length - offset
decreasing_by omega

lemma chunksGo_dropLast {α : Type} [Inhabited α] (tid : String)
    (buf : AudioBufferM α) (spc : Nat) (hspc : 0 < spc) (offset : Nat) :
    ∀ c ∈ (chunksGo tid buf spc offset).dropLast, c.length = spc := by
  rw [chunksGo]
  by_cases h : offset < buf.length ∧ 0 < spc
  · rw [dif_pos h]
    by_cases hrest : offset + spc < buf.length
    · have hne : chunksGo tid buf spc (offset + spc) ≠ [] := by
        rw [chunksGo, dif_pos ⟨hrest, hspc⟩]
        simp
      rw [List.dropLast_cons_of_ne_nil hne]
      intro c hc
      rcases List.mem_cons.mp hc with hc | hc
      · rw [hc]
        simp
        omega
      · exact chunksGo_dropLast tid buf spc hspc (offset + spc) c hc
    · have hrest2 : chunksGo tid buf spc (offset + spc) = [] := by
        rw [chunksGo, dif_neg]
        intro hcon
        exact hrest hcon.1
      rw [hrest2]
      simp
  · rw [dif_neg h]
    simp
termination_by buf.length - offset
decreasing_by omega

lemma chunksGo_get {α : Type} [Inhabited α] (tid : String)
    (buf : AudioBufferM α) (spc : Nat) (hspc : 0 < spc) :
    ∀ (i offset : Nat) (c : AudioChunkM α),
      (chunksGo tid buf spc offset).get? i = some c →
      offset + i * spc < buf.length ∧
      c.chunkIndex = (offset + i * spc) / spc ∧
      c.length = min spc (buf.length - (offset + i * spc)) ∧
      c.channels = buf.channels.map
        (fun ch => sliceChannel ch (offset + i * spc) c.length) := by
  intro i
  induction i with
  | zero =>
    intro offset c hc
    rw [chunksGo] at hc
    by_cases h : offset < buf.length ∧ 0 < spc
    · rw [dif_pos h] at hc
      simp only [List.get?_cons_zero, Option.some.injEq] at hc
      subst hc
      refine ⟨by simpa using h.1, by simp, by simp, by simp⟩
    · rw [dif_neg h] at hc
      simp at hc
  | succ i ih =>
    intro offset c hc
    rw [chunksGo] at hc
    by_cases h : offset < buf.length ∧ 0 < spc
    · rw [dif_pos h] at hc
      simp only [List.get?_cons_succ] at hc
      have := ih (offset + spc) c hc
      have harith : offset + spc + i * spc = offset + (i + 1) * spc := by ring
      rw [harith] at this
      exact this
    · rw [dif_neg h] at hc
      simp at hc

lemma chunksGo_flatten {α : Type} [Inhabited α] (tid : String)
    (buf : AudioBufferM α) (spc : Nat) (hspc : 0 < spc) (idx : Nat)
    (hidx : idx < buf.channels.length)
    (hchlen : (buf.channels.getD idx []).length = buf.length) (offset : Nat) :
    ((chunksGo tid buf spc offset).map
      (fun c => c.channels.getD idx [])).flatten
      = (buf.channels.getD idx []).drop offset := by
  rw [chunksGo]
  by_cases h : offset < buf.length ∧ 0 < spc
  · rw [dif_pos h]
    simp only [List.map_cons, List.flatten_cons]
    rw [chunksGo_flatten tid buf spc hspc idx hidx hchlen (offset + spc)]
    have hmap : (buf.channels.map (fun ch =>
        sliceChannel ch offset (min spc (buf.length - offset)))).getD idx []
        = sliceChannel (buf.channels.getD idx []) offset
            (min spc (buf.length - offset)) := by
      rw [List.getD_eq_getElem _ _ (by simpa using hidx),
        List.getElem_map, List.getD_eq_getElem _ _ hidx]
    rw [hmap, sliceChannel_eq_drop_take _ _ _ (by omega)]
    by_cases hrest : offset + spc < buf.length
    · have hmin : min spc (buf.length - offset) = spc := by omega
      rw [hmin]
      have hdd : (buf.channels.getD idx []).drop (offset + spc)
          = ((buf.channels.getD idx []).drop offset).drop spc := by
        rw [List.drop_drop]
      rw [hdd, List.take_append_drop]
    · have hnil : (buf.channels.getD idx []).drop (offset + spc) = [] :=
        List.drop_eq_nil_of_le (by omega)
      have hmin : min spc (buf.length - offset)
          = ((buf.channels.getD idx []).drop offset).length := by
        rw [List.length_drop, hchlen]
        omega
      rw [hnil, hmin, List.take_length, List.append_nil]
  · rw [dif_neg h]
    have hge : ¬ offset < buf.length := fun hlt => h ⟨hlt, hspc⟩
    simp only [List.map_nil, List.flatten_nil]
    rw [List.drop_eq_nil_of_le (by omega)]
termination_by buf.length - offset
decreasing_by omega

lemma setAt_length {α : Type} (tgt src : List α) (off : Nat)
    (h : off + src.length ≤ tgt.length) :
    (setAt tgt src off).length = tgt.length := by
  simp [setAt]
  omega

lemma setAt_take {α : Type} (tgt src : List α) (off : Nat)
    (h : off ≤ tgt.length) :
    (setAt tgt src off).take (off + src.length) = tgt.take off ++ src := by
  unfold setAt
  have h2 : (tgt.take off ++ src).length = off + src.length := by
    simp
    omega
  rw [show off + src.length = (tgt.take off ++ src).length + 0 by rw [h2]; omega]
  rw [List.take_append]
  simp

lemma setAt_drop {α : Type} (tgt src : List α) (off n : Nat)
    (hsrc : off + src.length ≤ tgt.length) (hn : off + src.length ≤ n) :
    (setAt tgt src off).drop n = tgt.drop n := by
  unfold setAt
  have h2 : (tgt.take off ++ src).length = off + src.length := by
    simp
    omega
  nth_rewrite 1 [show n = (tgt.take off ++ src).length + (n - (off + src.length)) by
    rw [h2]; omega]
  rw [List.drop_append]
  rw [List.drop_drop]
  congr 1
  omega

lemma mergeGo_length {α : Type} :
    ∀ (cs : List (AudioChunkM α)) (acc : List (List α)) (off : Nat),
    (mergeGo acc off cs).length = acc.length := by
  intro cs
  induction cs with
  | nil => intro acc off; rfl
  | cons c cs ih =>
    intro acc off
    simp only [mergeGo]
    rw [ih]
    simp [List.enum_length]

lemma mergeGo_getD {α : Type} (idx : Nat) :
    ∀ (cs : List (AudioChunkM α)) (acc : List (List α)) (off T : Nat),
    idx < acc.length →
    (acc.getD idx []).length = T →
    off + ((cs.map (fun c => c.length)).sum) ≤ T →
    (∀ c ∈ cs, (c.channels.getD idx []).length = c.length) →
    (mergeGo acc off cs).getD idx []
      = (acc.getD idx []).take off
        ++ ((cs.map (fun c => c.channels.getD idx [])).flatten)
        ++ (acc.getD idx []).drop (off + (cs.map (fun c => c.length)).sum) := by
  intro cs
  induction cs with
  | nil =>
    intro acc off T hidx hT hb hc
    simp only [mergeGo, List.map_nil, List.flatten_nil, List.sum_nil,
      Nat.add_zero, List.nil_append, List.append_nil]
    exact (List.take_append_drop off _).symm
  | cons c cs ih =>
    intro acc off T hidx hT hb hc
    simp only [mergeGo]
    have hlen' : (acc.enum.map
        (fun p => setAt p.2 (c.channels.getD p.1 []) off)).length
        = acc.length := by
      simp [List.enum_length]
    have hsrclen : (c.channels.getD idx []).length = c.length :=
      hc c (List.mem_cons_self c cs)
    have hbc : off + c.length ≤ T := by
      simp only [List.map_cons, List.sum_cons] at hb
      omega
    have hgetD' : (acc.enum.map
        (fun p => setAt p.2 (c.channels.getD p.1 []) off)).getD idx []
        = setAt (acc.getD idx []) (c.channels.getD idx []) off := by
      rw [List.getD_eq_getElem _ _ (by rw [hlen']; exact hidx)]
      rw [List.getElem_map, List.getElem_enum]
      rw [List.getD_eq_getElem _ _ hidx]
    have hsetlen : off + (c.channels.getD idx []).length
        ≤ (acc.getD idx []).length := by
      rw [hsrclen, hT]
      exact hbc
    have hT' : ((acc.enum.map
        (fun p => setAt p.2 (c.channels.getD p.1 []) off)).getD idx []).length
        = T := by
      rw [hgetD', setAt_length _ _ _ hsetlen, hT]
    have hbsum : (off + c.length) + ((cs.map (fun c => c.length)).sum) ≤ T := by
      simp only [List.map_cons, List.sum_cons] at hb
      omega
    have IH := ih (acc.enum.map
        (fun p => setAt p.2 (c.channels.getD p.1 []) off)) (off + c.length) T
      (hlen' ▸ hidx) hT' hbsum
      (fun c' hc' => hc c' (List.mem_cons_of_mem _ hc'))
    rw [IH, hgetD']
    have htake := setAt_take (acc.getD idx []) (c.channels.getD idx []) off
      (by rw [hT]; omega)
    rw [hsrclen] at htake
    rw [htake]
    have hdrop := setAt_drop (acc.getD idx []) (c.channels.getD idx []) off
      (off + c.length + (cs.map (fun c => c.length)).sum)
      hsetlen (by rw [hsrclen]; omega)
    rw [hdrop]
    simp only [List.map_cons, List.flatten_cons, List.sum_cons]
    rw [show off + (c.length + (cs.map (fun c => c.length)).sum)
        = off + c.length + (cs.map (fun c => c.length)).sum from by omega]
    simp [List.append_assoc]

end BufferChunks

/-- C10: `audioBufferToChunks` partitions an `AudioBuffer` into chunks whose
lengths sum to the buffer's sample count, where every chunk except possibly
the last holds exactly `floor(chunkSizeBytes / (numberOfChannels * 4))`
samples and chunk `k` covers samples `[k * samplesPerChunk,
k * samplesPerChunk + length)` of every channel; `mergeChunks` applied to
those chunks reconstructs the channel data sample-for-sample. -/
theorem c10_chunk_roundtrip {α : Type} [Inhabited α]
    (csb : Nat) (buf : BufferChunks.AudioBufferM α) (trackId : String)
    (hch : buf.channels.length = buf.numberOfChannels)
    (hlen : ∀ ch ∈ buf.channels, ch.length = buf.length)
    (hspc : 0 < csb / (buf.numberOfChannels * 4)) :
    (((BufferChunks.audioBufferToChunks csb buf trackId).map
        (fun c => c.length)).sum = buf.length) ∧
    (∀ c ∈ (BufferChunks.audioBufferToChunks csb buf trackId).dropLast,
      c.length = csb / (buf.numberOfChannels * 4)) ∧
    (∀ (k : Nat) (c : BufferChunks.AudioChunkM α),
      (BufferChunks.audioBufferToChunks csb buf trackId).get? k = some c →
      c.chunkIndex = k ∧
      c.length = min (csb / (buf.numberOfChannels * 4))
        (buf.length - k * (csb / (buf.numberOfChannels * 4))) ∧
      c.channels = buf.channels.map
        (fun ch => (ch.drop (k * (csb / (buf.numberOfChannels * 4)))).take
          c.length)) ∧
    ((BufferChunks.mergeChunks (BufferChunks.audioBufferToChunks csb buf trackId)
        buf.numberOfChannels buf.sampleRate).channels = buf.channels) ∧
    ((BufferChunks.mergeChunks (BufferChunks.audioBufferToChunks csb buf trackId)
        buf.numberOfChannels buf.sampleRate).length = buf.length) := by
  have hsum : ((BufferChunks.audioBufferToChunks csb buf trackId).map
      (fun c => c.length)).sum = buf.length := by
    unfold BufferChunks.audioBufferToChunks
    rw [BufferChunks.chunksGo_sum trackId buf _ hspc 0]
    omega
  have hget : ∀ (k : Nat) (c : BufferChunks.AudioChunkM α),
      (BufferChunks.audioBufferToChunks csb buf trackId).get? k = some c →
      k * (csb / (buf.numberOfChannels * 4)) < buf.length ∧
      c.chunkIndex = k ∧
      c.length = min (csb / (buf.numberOfChannels * 4))
        (buf.length - k * (csb / (buf.numberOfChannels * 4))) ∧
      c.channels = buf.channels.map
        (fun ch => BufferChunks.sliceChannel ch
          (k * (csb / (buf.numberOfChannels * 4))) c.length) := by
    intro k c hc
    have := BufferChunks.chunksGo_get trackId buf _ hspc k 0 c hc
    simp only [Nat.zero_add] at this
    obtain ⟨h1, h2, h3, h4⟩ := this
    refine ⟨h1, ?_, h3, h4⟩
    rw [h2, Nat.mul_div_cancel k hspc]
  have hchanlen : ∀ c ∈ BufferChunks.audioBufferToChunks csb buf trackId,
      ∀ idx < buf.channels.length, (c.channels.getD idx []).length = c.length := by
    intro c hc idx hidx
    obtain ⟨k, hk⟩ := List.mem_iff_get?.mp hc
    obtain ⟨-, -, -, hchan⟩ := hget k c hk
    rw [hchan, List.getD_eq_getElem _ _ (by simpa using hidx),
      List.getElem_map]
    exact BufferChunks.sliceChannel_length _ _ _
  refine ⟨hsum, ?_, ?_, ?_, ?_⟩
  · unfold BufferChunks.audioBufferToChunks
    exact BufferChunks.chunksGo_dropLast trackId buf _ hspc 0
  · intro k c hc
    obtain ⟨hk, h2, h3, h4⟩ := hget k c hc
    refine ⟨h2, h3, ?_⟩
    rw [h4]
    apply List.map_congr_left
    intro ch hmem
    apply BufferChunks.sliceChannel_eq_drop_take
    rw [hlen ch hmem]
    omega
  · apply List.ext_getElem
    · show (BufferChunks.mergeGo _ 0 _).length = buf.channels.length
      rw [BufferChunks.mergeGo_length, List.length_replicate, hch]
    · intro idx hidx1 hidx2
      have hidxch : idx < buf.channels.length := hidx2
      have hidxn : idx < buf.numberOfChannels := by omega
      rw [← List.getD_eq_getElem _ ([] : List α) hidx1,
        ← List.getD_eq_getElem _ ([] : List α) hidx2]
      show (BufferChunks.mergeGo
          (List.replicate buf.numberOfChannels
            (List.replicate (((BufferChunks.audioBufferToChunks csb buf
              trackId).map (fun c => c.length)).sum) default)) 0
          (BufferChunks.audioBufferToChunks csb buf trackId)).getD idx []
        = buf.channels.getD idx []
      have hinit : (List.replicate buf.numberOfChannels
          (List.replicate (((BufferChunks.audioBufferToChunks csb buf
            trackId).map (fun c => c.length)).sum) default) :
            List (List α)).getD idx []
          = List.replicate (((BufferChunks.audioBufferToChunks csb buf
              trackId).map (fun c => c.length)).sum) default := by
        rw [List.getD_eq_getElem _ _ (by simpa using hidxn),
          List.getElem_replicate]
      rw [BufferChunks.mergeGo_getD idx
        (BufferChunks.audioBufferToChunks csb buf trackId) _ 0
        (((BufferChunks.audioBufferToChunks csb buf trackId).map
          (fun c => c.length)).sum)
        (by simpa using hidxn)
        (by rw [hinit, List.length_replicate])
        (by omega)
        (fun c hc => hchanlen c hc idx hidxch)]
      rw [hinit, List.take_zero, Nat.zero_add,
        List.drop_eq_nil_of_le (by rw [List.length_replicate]),
        List.append_nil, List.nil_append]
      have hchlen2 : (buf.channels.getD idx []).length = buf.length := by
        rw [List.getD_eq_getElem _ _ hidxch]
        exact hlen _ (List.getElem_mem hidxch)
      have := BufferChunks.chunksGo_flatten trackId buf
        (csb / (buf.numberOfChannels * 4)) hspc idx hidxch hchlen2 0
      unfold BufferChunks.audioBufferToChunks
      rw [this, List.drop_zero]
  · show ((BufferChunks.audioBufferToChunks csb buf trackId).map
      (fun c => c.length)).sum = buf.length
    exact hsum

/-- Witness for C10: a 5-sample mono buffer with a chunk byte size of 8
(2 samples per chunk) satisfies every hypothesis; its chunk lengths sum to
the 5 samples. -/
theorem c10_witness :
    ((⟨1, 10, 5, [[7, 8, 9, 10, 11]]⟩ :
        BufferChunks.AudioBufferM Nat).channels.length
      = (⟨1, 10, 5, [[7, 8, 9, 10, 11]]⟩ :
        BufferChunks.AudioBufferM Nat).numberOfChannels) ∧
    (∀ ch ∈ (⟨1, 10, 5, [[7, 8, 9, 10, 11]]⟩ :
        BufferChunks.AudioBufferM Nat).channels, ch.length = 5) ∧
    (0 < 8 / ((⟨1, 10, 5, [[7, 8, 9, 10, 11]]⟩ :
        BufferChunks.AudioBufferM Nat).numberOfChannels * 4)) ∧
    ((BufferChunks.audioBufferToChunks 8
        (⟨1, 10, 5, [[7, 8, 9, 10, 11]]⟩ : BufferChunks.AudioBufferM Nat)
        "t").map (fun c => c.length)).sum = 5 :=
  ⟨rfl, by decide, by decide,
    (c10_chunk_roundtrip 8 ⟨1, 10, 5, [[7, 8, 9, 10, 11]]⟩ "t" rfl
      (by decide) (by decide)).1⟩
